import Mathlib

/-!
Verification of the primitive-mesh generators of `stl_tool.py`
(Unitree-URDF-simple).

The source builds, for each of four solid primitives (cylinder, sphere,
cone, frustum), a list of 3-D vertices and a list of triangular faces
given by vertex-index triples, and hands both to an external STL writer.
The writer and the console diagnostics are a serialization boundary and
are not modelled; each generator is embedded as a pure function from its
numeric parameters to the `(vertices, faces)` pair that the Python
function returns.

Machine floats are modelled by exact reals; Python lists by `List`;
`numpy` vertex rows by a `Vec3` structure.  Python's
`num_segments = max(3, num_segments)` clamp at the top of every
generator is kept as `max 3 ·` applied to the `ℕ` argument.
-/

namespace StlTool

noncomputable section

/-- A 3-D point / vector: one row of the Python `vertices` array. -/
structure Vec3 where
  x : ℝ
  y : ℝ
  z : ℝ

instance : Add Vec3 := ⟨fun u v => ⟨u.x + v.x, u.y + v.y, u.z + v.z⟩⟩

instance : Sub Vec3 := ⟨fun u v => ⟨u.x - v.x, u.y - v.y, u.z - v.z⟩⟩

@[simp] theorem Vec3.add_x (u v : Vec3) : (u + v).x = u.x + v.x := rfl

@[simp] theorem Vec3.add_y (u v : Vec3) : (u + v).y = u.y + v.y := rfl

@[simp] theorem Vec3.add_z (u v : Vec3) : (u + v).z = u.z + v.z := rfl

@[simp] theorem Vec3.sub_x (u v : Vec3) : (u - v).x = u.x - v.x := rfl

@[simp] theorem Vec3.sub_y (u v : Vec3) : (u - v).y = u.y - v.y := rfl

@[simp] theorem Vec3.sub_z (u v : Vec3) : (u - v).z = u.z - v.z := rfl

/-- Scalar multiple of a vector. -/
def smul3 (a : ℝ) (v : Vec3) : Vec3 := ⟨a * v.x, a * v.y, a * v.z⟩

@[simp] theorem smul3_x (a : ℝ) (v : Vec3) : (smul3 a v).x = a * v.x := rfl

@[simp] theorem smul3_y (a : ℝ) (v : Vec3) : (smul3 a v).y = a * v.y := rfl

@[simp] theorem smul3_z (a : ℝ) (v : Vec3) : (smul3 a v).z = a * v.z := rfl

/-- Cross product, as computed by `np.cross` in `stl_tool.py` line 97. -/
def cross (u v : Vec3) : Vec3 :=
  ⟨u.y * v.z - u.z * v.y, u.z * v.x - u.x * v.z, u.x * v.y - u.y * v.x⟩

/-- Euclidean dot product. -/
def dot (u v : Vec3) : ℝ := u.x * v.x + u.y * v.y + u.z * v.z

/-- Euclidean norm (`np.linalg.norm`). -/
def norm3 (v : Vec3) : ℝ := Real.sqrt (v.x ^ 2 + v.y ^ 2 + v.z ^ 2)

/-- `normal / np.linalg.norm(normal)` (`stl_tool.py` line 98). -/
def normalize3 (v : Vec3) : Vec3 := ⟨v.x / norm3 v, v.y / norm3 v, v.z / norm3 v⟩

/-- A triangle: an ordered triple of vertex indices (one row of `faces`). -/
abbrev Face := ℕ × ℕ × ℕ

/-- Vertex lookup `vertices[i]`.  The Python code indexes the `numpy`
array directly; the embedding totalizes the lookup with a default (the
in-bounds claim C8 shows the default is never consulted for generated
meshes). -/
def getV (vs : List Vec3) (i : ℕ) : Vec3 := vs.getD i ⟨0, 0, 0⟩

/-- The normal computed from a face's vertex winding, before
normalization: `np.cross(v1 - v0, v2 - v0)` (`stl_tool.py` lines 95-97). -/
def faceNormal (vs : List Vec3) (f : Face) : Vec3 :=
  cross (getV vs f.2.1 - getV vs f.1) (getV vs f.2.2 - getV vs f.1)

/-- The unit normal `normalize((v1 - v0) × (v2 - v0))` of spec §3. -/
def faceUnitNormal (vs : List Vec3) (f : Face) : Vec3 :=
  normalize3 (faceNormal vs f)

/-- Centroid of a face's three vertices. -/
def centroid3 (vs : List Vec3) (f : Face) : Vec3 :=
  smul3 (1 / 3) (getV vs f.1 + getV vs f.2.1 + getV vs f.2.2)

/-- "The computed normal points away from the solid's interior" (spec §3),
relative to a reference interior point `c` on the solid's axis: the face
normal is perpendicular to the face, so it points away from the interior
exactly when its dot product with the vector from `c` to the face's
centroid is positive. -/
def FaceOutwardFrom (vs : List Vec3) (f : Face) (c : Vec3) : Prop :=
  0 < dot (faceUnitNormal vs f) (centroid3 vs f - c)

/-- The angle `2 * math.pi * i / num_segments` of the ring loops. -/
def ringAngle (N i : ℕ) : ℝ := 2 * Real.pi * i / N

/-! ### Cylinder (`create_cylinder_stl`, lines 5-121) -/

/-- Vertex list of the cylinder for an already-clamped segment count:
bottom center, top center, bottom ring, top ring (lines 20-44). -/
def cylinderVertices (radius height : ℝ) (N : ℕ) : List Vec3 :=
  [⟨0, 0, -(height / 2)⟩, ⟨0, 0, height / 2⟩]
    ++ (List.range N).map (fun i =>
        ⟨radius * Real.cos (ringAngle N i), radius * Real.sin (ringAngle N i),
          -(height / 2)⟩)
    ++ (List.range N).map (fun i =>
        ⟨radius * Real.cos (ringAngle N i), radius * Real.sin (ringAngle N i),
          height / 2⟩)

/-- Bottom-cap triangles `[0, 2 + next_i, 2 + i]` (lines 51-55); also the
base cap of the cone (lines 256-259) and of the frustum (lines 340-343). -/
def bottomCapFaces (N : ℕ) : List Face :=
  (List.range N).map (fun i => (0, 2 + (i + 1) % N, 2 + i))

/-- Top-cap triangles `[1, 2 + N + i, 2 + N + next_i]` (lines 59-63);
identical in the frustum (lines 346-349). -/
def topCapFaces (N : ℕ) : List Face :=
  (List.range N).map (fun i => (1, 2 + N + i, 2 + N + (i + 1) % N))

/-- Side-wall quads, two triangles per segment (lines 66-83); identical
in the frustum (lines 352-367). -/
def sideQuadFaces (N : ℕ) : List Face :=
  (List.range N).flatMap (fun i =>
    [(2 + i, 2 + (i + 1) % N, 2 + N + (i + 1) % N),
     (2 + i, 2 + N + (i + 1) % N, 2 + N + i)])

/-- Face list shared by the cylinder (lines 47-85) and the frustum
(lines 337-369): bottom cap, then top cap, then side walls. -/
def prismFaces (N : ℕ) : List Face :=
  bottomCapFaces N ++ topCapFaces N ++ sideQuadFaces N

/-- `create_cylinder_stl` (lines 5-121), without the file write and
prints: segment count clamped by `max(3, ·)` (line 17), then vertices
and faces as returned on line 121. -/
def create_cylinder_stl (radius height : ℝ) (num_segments : ℕ) :
    List Vec3 × List Face :=
  (cylinderVertices radius height (max 3 num_segments),
   prismFaces (max 3 num_segments))

/-! ### Sphere (`create_sphere_stl`, lines 123-217) -/

/-- Polar angle `math.pi * i / num_segments_vertical` (line 146). -/
def polarAngle (Nv i : ℕ) : ℝ := Real.pi * i / Nv

/-- Azimuth `2 * math.pi * j / num_segments_horizontal` (line 151). -/
def azimuth (Nh j : ℕ) : ℝ := 2 * Real.pi * j / Nh

/-- Ring vertex of the sphere at latitude index `i`, longitude `j`
(lines 146-154): `circle_radius = r*sin(theta)`, `z = r*cos(theta)`. -/
def spherePoint (r : ℝ) (Nv Nh i j : ℕ) : Vec3 :=
  ⟨r * Real.sin (polarAngle Nv i) * Real.cos (azimuth Nh j),
   r * Real.sin (polarAngle Nv i) * Real.sin (azimuth Nh j),
   r * Real.cos (polarAngle Nv i)⟩

/-- Sphere vertex list for already-clamped counts: north pole, one ring
per latitude `i ∈ range(1, Nv)`, south pole (lines 139-159). -/
def sphereVertices (r : ℝ) (Nv Nh : ℕ) : List Vec3 :=
  [⟨0, 0, r⟩]
    ++ (List.range' 1 (Nv - 1)).flatMap (fun i =>
        (List.range Nh).map (fun j => spherePoint r Nv Nh i j))
    ++ [⟨0, 0, -r⟩]

/-- North-cap fan `[0, 1 + next_j, 1 + j]` (lines 165-169). -/
def sphereNorthFaces (Nh : ℕ) : List Face :=
  (List.range Nh).map (fun j => (0, 1 + (j + 1) % Nh, 1 + j))

/-- Mid-latitude quads split into two triangles (lines 172-188). -/
def sphereMidFaces (Nv Nh : ℕ) : List Face :=
  (List.range (Nv - 2)).flatMap (fun i =>
    (List.range Nh).flatMap (fun j =>
      [(1 + i * Nh + j, 1 + i * Nh + (j + 1) % Nh,
        1 + (i + 1) * Nh + (j + 1) % Nh),
       (1 + i * Nh + j, 1 + (i + 1) * Nh + (j + 1) % Nh,
        1 + (i + 1) * Nh + j)]))

/-- South-cap fan (lines 191-198).  The code's
`south_pole_index = len(vertices) - 1` equals `1 + (Nv - 1) * Nh` (see
`sphereVertices_length`), and `last_latitude_start = 1 + (Nv-2)*Nh`. -/
def sphereSouthFaces (Nv Nh : ℕ) : List Face :=
  (List.range Nh).map (fun j =>
    (1 + (Nv - 2) * Nh + j, 1 + (Nv - 2) * Nh + (j + 1) % Nh,
     1 + (Nv - 1) * Nh))

/-- Sphere face list: north fan, mid bands, south fan (lines 162-200). -/
def sphereFaces (Nv Nh : ℕ) : List Face :=
  sphereNorthFaces Nh ++ sphereMidFaces Nv Nh ++ sphereSouthFaces Nv Nh

/-- `create_sphere_stl` (lines 123-217): both segment counts clamped by
`max(3, ·)` (lines 135-136), then vertices and faces as returned. -/
def create_sphere_stl (radius : ℝ) (num_segments_vertical num_segments_horizontal : ℕ) :
    List Vec3 × List Face :=
  (sphereVertices radius (max 3 num_segments_vertical) (max 3 num_segments_horizontal),
   sphereFaces (max 3 num_segments_vertical) (max 3 num_segments_horizontal))

/-! ### Cone (`create_cone_stl`, lines 219-292) -/

/-- Cone vertex list: base center `(0,0,0)`, apex `(0,0,h)`, base ring
at `z = 0` (lines 234-248). -/
def coneVertices (radius height : ℝ) (N : ℕ) : List Vec3 :=
  [⟨0, 0, 0⟩, ⟨0, 0, height⟩]
    ++ (List.range N).map (fun i =>
        ⟨radius * Real.cos (ringAngle N i), radius * Real.sin (ringAngle N i), 0⟩)

/-- Cone side triangles `[bottom_current, bottom_next, apex]`
(lines 262-273). -/
def coneSideFaces (N : ℕ) : List Face :=
  (List.range N).map (fun i => (2 + i, 2 + (i + 1) % N, 1))

/-- Cone face list: base cap then sides (lines 253-275). -/
def coneFaces (N : ℕ) : List Face := bottomCapFaces N ++ coneSideFaces N

/-- `create_cone_stl` (lines 219-292): clamp (line 231), vertices,
faces. -/
def create_cone_stl (radius height : ℝ) (num_segments : ℕ) :
    List Vec3 × List Face :=
  (coneVertices radius height (max 3 num_segments),
   coneFaces (max 3 num_segments))

/-! ### Frustum (`create_cone_with_top_stl`, lines 294-386) -/

/-- Frustum vertex list: bottom center `(0,0,0)`, top center `(0,0,h)`,
bottom ring of radius `bottom_radius` at `z = 0`, top ring of radius
`top_radius` at `z = h` (lines 310-334). -/
def frustumVertices (bottom_radius top_radius height : ℝ) (N : ℕ) : List Vec3 :=
  [⟨0, 0, 0⟩, ⟨0, 0, height⟩]
    ++ (List.range N).map (fun i =>
        ⟨bottom_radius * Real.cos (ringAngle N i),
          bottom_radius * Real.sin (ringAngle N i), 0⟩)
    ++ (List.range N).map (fun i =>
        ⟨top_radius * Real.cos (ringAngle N i),
          top_radius * Real.sin (ringAngle N i), height⟩)

/-- `create_cone_with_top_stl` (lines 294-386): clamp (line 307),
vertices, and faces — its face-building code (lines 337-369) is
line-for-line the cylinder's (lines 47-85), hence `prismFaces`. -/
def create_cone_with_top_stl (bottom_radius top_radius height : ℝ) (num_segments : ℕ) :
    List Vec3 × List Face :=
  (frustumVertices bottom_radius top_radius height (max 3 num_segments),
   prismFaces (max 3 num_segments))

/-! ### Basic list-access and length lemmas -/

theorem getD_map_range {α : Type} (f : ℕ → α) (d : α) {N i : ℕ} (hi : i < N) :
    ((List.range N).map f).getD i d = f i := by
  simp [List.getD_eq_getElem?_getD, List.getElem?_map, List.getElem?_range hi]

theorem length_flatMap_range {α : Type} {c : ℕ} (N : ℕ) (g : ℕ → List α)
    (h : ∀ i, (g i).length = c) :
    ((List.range N).flatMap g).length = N * c := by
  induction N with
  | zero => simp
  | succ m ih =>
      rw [List.range_succ, List.flatMap_append, List.length_append, ih,
        List.flatMap_singleton, h, Nat.succ_mul]

theorem length_flatMap_range_map {α : Type} (M K : ℕ) (p : ℕ → ℕ → α) :
    ((List.range M).flatMap (fun i => (List.range K).map (p i))).length = M * K := by
  exact length_flatMap_range M _ (fun i => by simp)

theorem getD_flatMap_range_map {α : Type} {M K : ℕ} (p : ℕ → ℕ → α) (d : α)
    {i j : ℕ} (hi : i < M) (hj : j < K) :
    ((List.range M).flatMap (fun a => (List.range K).map (p a))).getD (i * K + j) d
      = p i j := by
  induction M with
  | zero => omega
  | succ m ih =>
      rw [List.range_succ, List.flatMap_append, List.flatMap_singleton]
      rcases Nat.lt_or_ge i m with him | him
      · rw [List.getD_append]
        · exact ih him
        · rw [length_flatMap_range_map]
          have : i + 1 ≤ m := him
          calc i * K + j < i * K + K := by omega
            _ = (i + 1) * K := by ring
            _ ≤ m * K := Nat.mul_le_mul_right K this
      · have hie : i = m := by omega
        subst hie
        rw [List.getD_append_right]
        · rw [length_flatMap_range_map]
          have he : i * K + j - i * K = j := by omega
          rw [he]
          exact getD_map_range _ d hj
        · rw [length_flatMap_range_map]; omega

theorem cylinderVertices_length (r h : ℝ) (N : ℕ) :
    (cylinderVertices r h N).length = 2 + 2 * N := by
  simp [cylinderVertices]; ring

theorem coneVertices_length (r h : ℝ) (N : ℕ) :
    (coneVertices r h N).length = 2 + N := by
  simp [coneVertices]; ring

theorem frustumVertices_length (rb rt h : ℝ) (N : ℕ) :
    (frustumVertices rb rt h N).length = 2 + 2 * N := by
  simp [frustumVertices]; ring

theorem sphereVertices_length (r : ℝ) (Nv Nh : ℕ) :
    (sphereVertices r Nv Nh).length = 2 + (Nv - 1) * Nh := by
  have h1 : (List.range' 1 (Nv - 1)).flatMap
      (fun i => (List.range Nh).map (fun j => spherePoint r Nv Nh i j))
      = (List.range (Nv - 1)).flatMap
        (fun a => (List.range Nh).map (fun j => spherePoint r Nv Nh (1 + a) j)) := by
    rw [List.range'_eq_map_range, List.flatMap_map]
  rw [sphereVertices, List.append_assoc, List.length_append, h1]
  have h2 := length_flatMap_range_map (Nv - 1) Nh
      (fun a j => spherePoint r Nv Nh (1 + a) j)
  simp only [List.length_cons, List.length_nil, List.length_append, h2]
  omega

theorem sideQuadFaces_length (N : ℕ) : (sideQuadFaces N).length = N * 2 :=
  length_flatMap_range N _ (fun _ => rfl)

theorem prismFaces_length (N : ℕ) : (prismFaces N).length = 4 * N := by
  simp [prismFaces, bottomCapFaces, topCapFaces, List.length_append,
    sideQuadFaces_length]
  ring

theorem coneFaces_length (N : ℕ) : (coneFaces N).length = 2 * N := by
  simp [coneFaces, bottomCapFaces, coneSideFaces]; ring

theorem sphereMidFaces_length (Nv Nh : ℕ) :
    (sphereMidFaces Nv Nh).length = (Nv - 2) * (Nh * 2) := by
  exact length_flatMap_range (Nv - 2) _
    (fun i => length_flatMap_range Nh _ (fun _ => rfl))

theorem sphereFaces_length (Nv Nh : ℕ) :
    (sphereFaces Nv Nh).length = 2 * Nh + 2 * Nh * (Nv - 2) := by
  simp only [sphereFaces, sphereNorthFaces, sphereSouthFaces,
    List.length_append, List.length_map, List.length_range,
    sphereMidFaces_length]
  ring

/-! ### Arithmetic helpers for ring indices -/

/-- The wrap-around successor `(i + 1) % N`, made omega-friendly. -/
theorem next_spec (N i : ℕ) (h : i < N) :
    ((i + 1) % N = i + 1 ∧ i + 1 < N) ∨ ((i + 1) % N = 0 ∧ i + 1 = N) := by
  rcases Nat.lt_or_ge (i + 1) N with h1 | h1
  · exact Or.inl ⟨Nat.mod_eq_of_lt h1, h1⟩
  · have h2 : i + 1 = N := by omega
    exact Or.inr ⟨by simp [h2], h2⟩

theorem succ_mul_eq (a M : ℕ) : (a + 1) * M = a * M + M := Nat.succ_mul a M

theorem pred_mul_eq {Nv : ℕ} (h : 3 ≤ Nv) (M : ℕ) :
    (Nv - 1) * M = (Nv - 2) * M + M := by
  rw [show Nv - 1 = (Nv - 2) + 1 by omega, Nat.succ_mul]

/-- Two-dimensional ring-vertex indices `1 + i*Nh + j` are injective. -/
theorem ridx_inj {M a b c d : ℕ} (hc : c < M) (hd : d < M)
    (h : 1 + a * M + c = 1 + b * M + d) : a = b ∧ c = d := by
  have key : a = b := by
    rcases Nat.lt_trichotomy a b with hab | hab | hab
    · have h2 : (a + 1) * M ≤ b * M := Nat.mul_le_mul_right M (by omega)
      have h4 : a * M + M = (a + 1) * M := (Nat.succ_mul a M).symm
      omega
    · exact hab
    · have h2 : (b + 1) * M ≤ a * M := Nat.mul_le_mul_right M (by omega)
      have h4 : b * M + M = (b + 1) * M := (Nat.succ_mul b M).symm
      omega
  subst key
  exact ⟨rfl, by omega⟩

theorem ridx_lt {Nv M a c : ℕ} (h3 : 3 ≤ Nv) (ha : a ≤ Nv - 2) (hc : c < M) :
    1 + a * M + c < 1 + (Nv - 1) * M := by
  have h1 : a + 1 ≤ Nv - 1 := by omega
  have h2 : (a + 1) * M ≤ (Nv - 1) * M := Nat.mul_le_mul_right M h1
  have h4 : a * M + M = (a + 1) * M := (Nat.succ_mul a M).symm
  omega

/-! ### Membership case analyses for the face lists -/

theorem prismFaces_cases {N : ℕ} {f : Face} (h : f ∈ prismFaces N) :
    (∃ i, i < N ∧ f = (0, 2 + (i + 1) % N, 2 + i)) ∨
    (∃ i, i < N ∧ f = (1, 2 + N + i, 2 + N + (i + 1) % N)) ∨
    (∃ i, i < N ∧ (f = (2 + i, 2 + (i + 1) % N, 2 + N + (i + 1) % N) ∨
                   f = (2 + i, 2 + N + (i + 1) % N, 2 + N + i))) := by
  simp only [prismFaces, List.mem_append, bottomCapFaces, topCapFaces,
    sideQuadFaces, List.mem_map, List.mem_flatMap, List.mem_range,
    List.mem_cons, List.not_mem_nil, or_false] at h
  rcases h with (⟨i, hi, he⟩ | ⟨i, hi, he⟩) | ⟨i, hi, he | he⟩
  · exact Or.inl ⟨i, hi, he.symm⟩
  · exact Or.inr (Or.inl ⟨i, hi, he.symm⟩)
  · exact Or.inr (Or.inr ⟨i, hi, Or.inl he⟩)
  · exact Or.inr (Or.inr ⟨i, hi, Or.inr he⟩)

theorem coneFaces_cases {N : ℕ} {f : Face} (h : f ∈ coneFaces N) :
    (∃ i, i < N ∧ f = (0, 2 + (i + 1) % N, 2 + i)) ∨
    (∃ i, i < N ∧ f = (2 + i, 2 + (i + 1) % N, 1)) := by
  simp only [coneFaces, List.mem_append, bottomCapFaces, coneSideFaces,
    List.mem_map, List.mem_range] at h
  rcases h with ⟨i, hi, he⟩ | ⟨i, hi, he⟩
  · exact Or.inl ⟨i, hi, he.symm⟩
  · exact Or.inr ⟨i, hi, he.symm⟩

theorem sphereFaces_cases {Nv Nh : ℕ} {f : Face} (h : f ∈ sphereFaces Nv Nh) :
    (∃ j, j < Nh ∧ f = (0, 1 + (j + 1) % Nh, 1 + j)) ∨
    (∃ i j, i < Nv - 2 ∧ j < Nh ∧
      (f = (1 + i * Nh + j, 1 + i * Nh + (j + 1) % Nh,
            1 + (i + 1) * Nh + (j + 1) % Nh) ∨
       f = (1 + i * Nh + j, 1 + (i + 1) * Nh + (j + 1) % Nh,
            1 + (i + 1) * Nh + j))) ∨
    (∃ j, j < Nh ∧ f = (1 + (Nv - 2) * Nh + j, 1 + (Nv - 2) * Nh + (j + 1) % Nh,
                        1 + (Nv - 1) * Nh)) := by
  simp only [sphereFaces, List.mem_append, sphereNorthFaces, sphereMidFaces,
    sphereSouthFaces, List.mem_map, List.mem_flatMap, List.mem_range,
    List.mem_cons, List.not_mem_nil, or_false] at h
  rcases h with (⟨j, hj, he⟩ | ⟨i, hi, j, hj, he | he⟩) | ⟨j, hj, he⟩
  · exact Or.inl ⟨j, hj, he.symm⟩
  · exact Or.inr (Or.inl ⟨i, j, hi, hj, Or.inl he⟩)
  · exact Or.inr (Or.inl ⟨i, j, hi, hj, Or.inr he⟩)
  · exact Or.inr (Or.inr ⟨j, hj, he.symm⟩)

/-! ### Distinct vertex indices within each face (claim C10) -/

/-- A face references three pairwise-distinct vertex indices. -/
def FaceDistinct (f : Face) : Prop :=
  f.1 ≠ f.2.1 ∧ f.2.1 ≠ f.2.2 ∧ f.2.2 ≠ f.1

theorem prismFaces_distinct {N : ℕ} (hN : 3 ≤ N) :
    ∀ f ∈ prismFaces N, FaceDistinct f := by
  intro f h
  rcases prismFaces_cases h with ⟨i, hi, rfl⟩ | ⟨i, hi, rfl⟩ | ⟨i, hi, rfl | rfl⟩ <;>
    rcases next_spec N i hi with ⟨h1, h2⟩ | ⟨h1, h2⟩ <;>
      simp only [FaceDistinct, h1] <;> omega

theorem coneFaces_distinct {N : ℕ} (hN : 3 ≤ N) :
    ∀ f ∈ coneFaces N, FaceDistinct f := by
  intro f h
  rcases coneFaces_cases h with ⟨i, hi, rfl⟩ | ⟨i, hi, rfl⟩ <;>
    rcases next_spec N i hi with ⟨h1, h2⟩ | ⟨h1, h2⟩ <;>
      simp only [FaceDistinct, h1] <;> omega

theorem sphereFaces_distinct {Nv Nh : ℕ} (hNv : 3 ≤ Nv) (hNh : 3 ≤ Nh) :
    ∀ f ∈ sphereFaces Nv Nh, FaceDistinct f := by
  intro f h
  have hsm : ∀ a : ℕ, (a + 1) * Nh = a * Nh + Nh := fun a => Nat.succ_mul a Nh
  have hpm : (Nv - 1) * Nh = (Nv - 2) * Nh + Nh := pred_mul_eq hNv Nh
  rcases sphereFaces_cases h with ⟨j, hj, rfl⟩ | ⟨i, j, hi, hj, rfl | rfl⟩ | ⟨j, hj, rfl⟩ <;>
    rcases next_spec Nh j hj with ⟨h1, h2⟩ | ⟨h1, h2⟩ <;>
      simp only [FaceDistinct, h1, hsm, hpm] <;> omega

/-! ### Face indices in bounds (claim C8) -/

/-- Every vertex index referenced by a face of the mesh is a valid index
into the mesh's vertex list. -/
def FacesInBounds (m : List Vec3 × List Face) : Prop :=
  ∀ f ∈ m.2, f.1 < m.1.length ∧ f.2.1 < m.1.length ∧ f.2.2 < m.1.length

theorem prism_inBounds {N : ℕ} (hN : 3 ≤ N) (vs : List Vec3)
    (hlen : vs.length = 2 + 2 * N) : FacesInBounds (vs, prismFaces N) := by
  intro f h
  rcases prismFaces_cases h with ⟨i, hi, rfl⟩ | ⟨i, hi, rfl⟩ | ⟨i, hi, rfl | rfl⟩ <;>
    rcases next_spec N i hi with ⟨h1, h2⟩ | ⟨h1, h2⟩ <;>
      simp only [hlen, h1] <;> omega

theorem cone_inBounds {N : ℕ} (hN : 3 ≤ N) (vs : List Vec3)
    (hlen : vs.length = 2 + N) : FacesInBounds (vs, coneFaces N) := by
  intro f h
  rcases coneFaces_cases h with ⟨i, hi, rfl⟩ | ⟨i, hi, rfl⟩ <;>
    rcases next_spec N i hi with ⟨h1, h2⟩ | ⟨h1, h2⟩ <;>
      simp only [hlen, h1] <;> omega

theorem sphere_inBounds {Nv Nh : ℕ} (hNv : 3 ≤ Nv) (hNh : 3 ≤ Nh) (vs : List Vec3)
    (hlen : vs.length = 2 + (Nv - 1) * Nh) :
    FacesInBounds (vs, sphereFaces Nv Nh) := by
  intro f h
  have hb : ∀ a c : ℕ, a ≤ Nv - 2 → c < Nh → 1 + a * Nh + c < 2 + (Nv - 1) * Nh :=
    fun a c ha hc => lt_trans (ridx_lt hNv ha hc) (by omega)
  have hb0 : ∀ c : ℕ, c < Nh → 1 + c < 2 + (Nv - 1) * Nh := by
    intro c hc
    have h5 := hb 0 c (by omega) hc
    simpa using h5
  have hm : ∀ j : ℕ, j < Nh → (j + 1) % Nh < Nh := fun j hj => Nat.mod_lt _ (by omega)
  rcases sphereFaces_cases h with ⟨j, hj, rfl⟩ | ⟨i, j, hi, hj, rfl | rfl⟩ | ⟨j, hj, rfl⟩ <;>
    simp only [hlen]
  · exact ⟨by omega, hb0 _ (hm j hj), hb0 _ hj⟩
  · exact ⟨hb i j (by omega) hj, hb i _ (by omega) (hm j hj),
      hb (i + 1) _ (by omega) (hm j hj)⟩
  · exact ⟨hb i j (by omega) hj, hb (i + 1) _ (by omega) (hm j hj),
      hb (i + 1) j (by omega) hj⟩
  · exact ⟨hb (Nv - 2) j (by omega) hj, hb (Nv - 2) _ (by omega) (hm j hj), by omega⟩

/-! ### Frustum with equal radii degenerates to the cylinder (claim C7) -/

theorem Vec3.ext3 {u v : Vec3} (hx : u.x = v.x) (hy : u.y = v.y)
    (hz : u.z = v.z) : u = v := by
  cases u; cases v; simp_all

theorem Vec3.mk_add_mk (a b c d e f : ℝ) :
    (⟨a, b, c⟩ + ⟨d, e, f⟩ : Vec3) = ⟨a + d, b + e, c + f⟩ := rfl

theorem frustumVertices_eq_translate (r h : ℝ) (M : ℕ) :
    frustumVertices r r h M
      = (cylinderVertices r h M).map (fun v => v + ⟨0, 0, h / 2⟩) := by
  have hB : ∀ zb zc : ℝ, zb + h / 2 = zc →
      ((List.range M).map (fun i =>
        (⟨r * Real.cos (ringAngle M i), r * Real.sin (ringAngle M i), zb⟩ : Vec3))).map
          (fun v => v + (⟨0, 0, h / 2⟩ : Vec3))
        = (List.range M).map (fun i =>
            (⟨r * Real.cos (ringAngle M i), r * Real.sin (ringAngle M i), zc⟩ : Vec3)) := by
    intro zb zc hz
    rw [List.map_map]
    apply List.map_congr_left
    intro i _
    simp only [Function.comp_apply, Vec3.mk_add_mk, Vec3.mk.injEq]
    exact ⟨by ring, by ring, hz⟩
  unfold frustumVertices cylinderVertices
  rw [List.map_append, List.map_append, hB (-(h / 2)) 0 (by ring),
    hB (h / 2) h (by ring), List.map_cons, List.map_cons, List.map_nil,
    Vec3.mk_add_mk, Vec3.mk_add_mk,
    show ((0 : ℝ) + 0) = 0 from by ring, show -(h / 2) + h / 2 = 0 from by ring,
    show h / 2 + h / 2 = h from by ring]

/-! ### Claim theorems: C3, C6, C7, C8, C10 -/

/-- C3: with clamped segment counts `N ≥ 3` (and `Nv, Nh ≥ 3`), the
generators return exactly the specified vertex and face counts:
cylinder `2+2N` vertices / `4N` faces, cone `2+N` / `2N`, frustum
`2+2N` / `4N`, sphere `2+(Nv-1)·Nh` vertices and `2·Nh + 2·Nh·(Nv-2)`
faces. -/
theorem generator_counts (r h rb rt : ℝ) (N Nv Nh : ℕ)
    (hN : 3 ≤ N) (hNv : 3 ≤ Nv) (hNh : 3 ≤ Nh) :
    ((create_cylinder_stl r h N).1.length = 2 + 2 * N ∧
     (create_cylinder_stl r h N).2.length = 4 * N) ∧
    ((create_cone_stl r h N).1.length = 2 + N ∧
     (create_cone_stl r h N).2.length = 2 * N) ∧
    ((create_cone_with_top_stl rb rt h N).1.length = 2 + 2 * N ∧
     (create_cone_with_top_stl rb rt h N).2.length = 4 * N) ∧
    ((create_sphere_stl r Nv Nh).1.length = 2 + (Nv - 1) * Nh ∧
     (create_sphere_stl r Nv Nh).2.length = 2 * Nh + 2 * Nh * (Nv - 2)) := by
  rw [create_cylinder_stl, create_cone_stl, create_cone_with_top_stl,
    create_sphere_stl, Nat.max_eq_right hN, Nat.max_eq_right hNv,
    Nat.max_eq_right hNh]
  exact ⟨⟨cylinderVertices_length r h N, prismFaces_length N⟩,
    ⟨coneVertices_length r h N, coneFaces_length N⟩,
    ⟨frustumVertices_length rb rt h N, prismFaces_length N⟩,
    ⟨sphereVertices_length r Nv Nh, sphereFaces_length Nv Nh⟩⟩

/-- Witness for `generator_counts` at radius 1, height 2, segment count
4 (the spec's cylinder scenario) and a 3×3 sphere. -/
theorem generator_counts_witness :
    3 ≤ 4 ∧ 3 ≤ 3 ∧
    (((create_cylinder_stl 1 2 4).1.length = 2 + 2 * 4 ∧
      (create_cylinder_stl 1 2 4).2.length = 4 * 4) ∧
     ((create_cone_stl 1 2 4).1.length = 2 + 4 ∧
      (create_cone_stl 1 2 4).2.length = 2 * 4) ∧
     ((create_cone_with_top_stl 1 1 2 4).1.length = 2 + 2 * 4 ∧
      (create_cone_with_top_stl 1 1 2 4).2.length = 4 * 4) ∧
     ((create_sphere_stl 1 3 3).1.length = 2 + (3 - 1) * 3 ∧
      (create_sphere_stl 1 3 3).2.length = 2 * 3 + 2 * 3 * (3 - 2))) :=
  ⟨by decide, by decide,
    generator_counts 1 2 1 1 4 3 3 (by decide) (by decide) (by decide)⟩

/-- C6: a segment count of 1 or 2 is silently clamped to 3: each
generator returns exactly the same vertex and face lists as with
segment count 3 (the embedding is total, so no error is possible). -/
theorem segment_clamp (r h rb rt : ℝ) (n nv nh m : ℕ)
    (hn : n = 1 ∨ n = 2) (hnv : nv = 1 ∨ nv = 2) (hnh : nh = 1 ∨ nh = 2) :
    create_cylinder_stl r h n = create_cylinder_stl r h 3 ∧
    create_cone_stl r h n = create_cone_stl r h 3 ∧
    create_cone_with_top_stl rb rt h n = create_cone_with_top_stl rb rt h 3 ∧
    create_sphere_stl r nv m = create_sphere_stl r 3 m ∧
    create_sphere_stl r m nh = create_sphere_stl r m 3 := by
  rw [create_cylinder_stl, create_cylinder_stl, create_cone_stl, create_cone_stl,
    create_cone_with_top_stl, create_cone_with_top_stl,
    create_sphere_stl, create_sphere_stl, create_sphere_stl, create_sphere_stl,
    show max 3 n = max 3 3 from by omega,
    show max 3 nv = max 3 3 from by omega,
    show max 3 nh = max 3 3 from by omega]
  exact ⟨rfl, rfl, rfl, rfl, rfl⟩

/-- Witness for `segment_clamp` at segment counts 2, 1, 2. -/
theorem segment_clamp_witness :
    ((2 : ℕ) = 1 ∨ (2 : ℕ) = 2) ∧
    create_cylinder_stl 1 2 2 = create_cylinder_stl 1 2 3 ∧
    create_cone_stl 1 2 2 = create_cone_stl 1 2 3 ∧
    create_cone_with_top_stl 1 1 2 2 = create_cone_with_top_stl 1 1 2 3 ∧
    create_sphere_stl 1 1 5 = create_sphere_stl 1 3 5 ∧
    create_sphere_stl 1 5 2 = create_sphere_stl 1 5 3 :=
  ⟨Or.inr rfl, segment_clamp 1 2 1 1 2 1 2 5 (Or.inr rfl) (Or.inl rfl) (Or.inr rfl)⟩

/-- C7: the frustum with equal radii degenerates to the cylinder: same
face list, and its vertex list is the cylinder's translated by
`(0, 0, h/2)` (the frustum spans `z ∈ [0, h]`, the cylinder
`z ∈ [-h/2, h/2]`). -/
theorem frustum_equal_radii_is_cylinder (r h : ℝ) (N : ℕ)
    (_hr : 0 < r) (_hh : 0 < h) :
    (create_cone_with_top_stl r r h N).2 = (create_cylinder_stl r h N).2 ∧
    (create_cone_with_top_stl r r h N).1
      = (create_cylinder_stl r h N).1.map (fun v => v + ⟨0, 0, h / 2⟩) :=
  ⟨rfl, frustumVertices_eq_translate r h (max 3 N)⟩

/-- Witness for `frustum_equal_radii_is_cylinder` at r = 1, h = 2,
N = 4. -/
theorem frustum_equal_radii_is_cylinder_witness :
    (0 : ℝ) < 1 ∧ (0 : ℝ) < 2 ∧
    ((create_cone_with_top_stl 1 1 2 4).2 = (create_cylinder_stl 1 2 4).2 ∧
     (create_cone_with_top_stl 1 1 2 4).1
       = (create_cylinder_stl 1 2 4).1.map (fun v => v + ⟨0, 0, 2 / 2⟩)) :=
  ⟨one_pos, two_pos, frustum_equal_radii_is_cylinder 1 2 4 one_pos two_pos⟩

/-- C8: for every generator and every input (segment counts clamped to
at least 3 internally), every vertex index of every returned face is in
range for the returned vertex list. -/
theorem faces_in_bounds (r h rb rt : ℝ) (n nv nh : ℕ) :
    FacesInBounds (create_cylinder_stl r h n) ∧
    FacesInBounds (create_cone_stl r h n) ∧
    FacesInBounds (create_cone_with_top_stl rb rt h n) ∧
    FacesInBounds (create_sphere_stl r nv nh) :=
  ⟨prism_inBounds (le_max_left 3 n) _ (cylinderVertices_length r h _),
   cone_inBounds (le_max_left 3 n) _ (coneVertices_length r h _),
   prism_inBounds (le_max_left 3 n) _ (frustumVertices_length rb rt h _),
   sphere_inBounds (le_max_left 3 nv) (le_max_left 3 nh) _
     (sphereVertices_length r _ _)⟩

/-- C10: no generator ever emits a degenerate triangle: every face of
every generated mesh has three pairwise-distinct vertex indices. -/
theorem faces_nondegenerate (r h rb rt : ℝ) (n nv nh : ℕ) :
    (∀ f ∈ (create_cylinder_stl r h n).2, FaceDistinct f) ∧
    (∀ f ∈ (create_cone_stl r h n).2, FaceDistinct f) ∧
    (∀ f ∈ (create_cone_with_top_stl rb rt h n).2, FaceDistinct f) ∧
    (∀ f ∈ (create_sphere_stl r nv nh).2, FaceDistinct f) :=
  ⟨prismFaces_distinct (le_max_left 3 n),
   coneFaces_distinct (le_max_left 3 n),
   prismFaces_distinct (le_max_left 3 n),
   sphereFaces_distinct (le_max_left 3 nv) (le_max_left 3 nh)⟩

/-! ### Trigonometric helpers -/

theorem cos_ringAngle_next {N i : ℕ} (hN : 0 < N) (hi : i < N) :
    Real.cos (ringAngle N ((i + 1) % N)) = Real.cos (ringAngle N (i + 1)) := by
  rcases next_spec N i hi with ⟨h1, _⟩ | ⟨h1, h2⟩
  · rw [h1]
  · rw [h1, h2]
    unfold ringAngle
    rw [Nat.cast_zero, mul_zero, zero_div, Real.cos_zero,
      mul_div_assoc, div_self (Nat.cast_ne_zero.mpr (by omega)), mul_one,
      Real.cos_two_pi]

theorem sin_ringAngle_next {N i : ℕ} (hN : 0 < N) (hi : i < N) :
    Real.sin (ringAngle N ((i + 1) % N)) = Real.sin (ringAngle N (i + 1)) := by
  rcases next_spec N i hi with ⟨h1, _⟩ | ⟨h1, h2⟩
  · rw [h1]
  · rw [h1, h2]
    unfold ringAngle
    rw [Nat.cast_zero, mul_zero, zero_div, Real.sin_zero,
      mul_div_assoc, div_self (Nat.cast_ne_zero.mpr (by omega)), mul_one,
      Real.sin_two_pi]

theorem ringAngle_sub (N i : ℕ) :
    ringAngle N (i + 1) - ringAngle N i = 2 * Real.pi / N := by
  unfold ringAngle
  push_cast
  ring

theorem sin_ring_delta_pos {N : ℕ} (hN : 3 ≤ N) :
    0 < Real.sin (2 * Real.pi / N) := by
  have hπ := Real.pi_pos
  have hN0 : (0 : ℝ) < N := by exact_mod_cast Nat.lt_of_lt_of_le (by omega) hN
  apply Real.sin_pos_of_pos_of_lt_pi
  · positivity
  · rw [div_lt_iff₀ hN0]
    have h3 : (3 : ℝ) ≤ (N : ℝ) := by exact_mod_cast hN
    nlinarith

/-! ### Vertex lookups into the generated vertex lists -/

theorem Vec3.mk_sub_mk (a b c d e f : ℝ) :
    (⟨a, b, c⟩ - ⟨d, e, f⟩ : Vec3) = ⟨a - d, b - e, c - f⟩ := rfl

theorem cross_mk (a b c d e f : ℝ) :
    cross ⟨a, b, c⟩ ⟨d, e, f⟩ = ⟨b * f - c * e, c * d - a * f, a * e - b * d⟩ := rfl

theorem getV_cylinder_c0 (r h : ℝ) (N : ℕ) :
    getV (cylinderVertices r h N) 0 = ⟨0, 0, -(h / 2)⟩ := rfl

theorem getV_cylinder_c1 (r h : ℝ) (N : ℕ) :
    getV (cylinderVertices r h N) 1 = ⟨0, 0, h / 2⟩ := rfl

theorem getV_cylinder_bottom (r h : ℝ) {N i : ℕ} (hi : i < N) :
    getV (cylinderVertices r h N) (2 + i)
      = ⟨r * Real.cos (ringAngle N i), r * Real.sin (ringAngle N i), -(h / 2)⟩ := by
  unfold getV cylinderVertices
  rw [List.append_assoc, List.getD_append_right _ _ _ _ (by simp),
    show 2 + i - ([(⟨0, 0, -(h / 2)⟩ : Vec3), ⟨0, 0, h / 2⟩]).length = i from by simp,
    List.getD_append _ _ _ _ (by simpa using hi)]
  exact getD_map_range _ _ hi

theorem getV_cylinder_top (r h : ℝ) {N i : ℕ} (hi : i < N) :
    getV (cylinderVertices r h N) (2 + N + i)
      = ⟨r * Real.cos (ringAngle N i), r * Real.sin (ringAngle N i), h / 2⟩ := by
  unfold getV cylinderVertices
  rw [List.append_assoc, List.getD_append_right _ _ _ _ (by simp; omega),
    show 2 + N + i - ([(⟨0, 0, -(h / 2)⟩ : Vec3), ⟨0, 0, h / 2⟩]).length = N + i
      from by simp; omega,
    List.getD_append_right _ _ _ _ (by simp),
    show N + i - ((List.range N).map (fun i =>
      (⟨r * Real.cos (ringAngle N i), r * Real.sin (ringAngle N i), -(h / 2)⟩ : Vec3))).length
        = i from by simp]
  exact getD_map_range _ _ hi

/-! ### Cylinder cap normals (claim C5) -/

theorem normalize3_z_neg {k : ℝ} (hk : 0 < k) :
    normalize3 ⟨0, 0, -k⟩ = ⟨0, 0, -1⟩ := by
  have hn : norm3 ⟨0, 0, -k⟩ = k := by
    unfold norm3
    rw [show ((0 : ℝ) ^ 2 + 0 ^ 2 + (-k) ^ 2) = k ^ 2 from by ring,
      Real.sqrt_sq hk.le]
  unfold normalize3
  rw [hn, Vec3.mk.injEq]
  refine ⟨by simp, by simp, ?_⟩
  rw [neg_div, div_self hk.ne']

theorem normalize3_z_pos {k : ℝ} (hk : 0 < k) :
    normalize3 ⟨0, 0, k⟩ = ⟨0, 0, 1⟩ := by
  have hn : norm3 ⟨0, 0, k⟩ = k := by
    unfold norm3
    rw [show ((0 : ℝ) ^ 2 + 0 ^ 2 + k ^ 2) = k ^ 2 from by ring,
      Real.sqrt_sq hk.le]
  unfold normalize3
  rw [hn, Vec3.mk.injEq]
  exact ⟨by simp, by simp, div_self hk.ne'⟩

theorem cylinder_bottom_faceNormal (r h : ℝ) {N i : ℕ} (hN : 3 ≤ N) (hi : i < N) :
    faceNormal (cylinderVertices r h N) (0, 2 + (i + 1) % N, 2 + i)
      = ⟨0, 0, -(r ^ 2 * Real.sin (2 * Real.pi / N))⟩ := by
  have hmod : (i + 1) % N < N := Nat.mod_lt _ (by omega)
  unfold faceNormal
  rw [show ((0 : ℕ), 2 + (i + 1) % N, 2 + i).1 = 0 from rfl,
    show ((0 : ℕ), 2 + (i + 1) % N, 2 + i).2.1 = 2 + (i + 1) % N from rfl,
    show ((0 : ℕ), 2 + (i + 1) % N, 2 + i).2.2 = 2 + i from rfl,
    getV_cylinder_c0, getV_cylinder_bottom r h hmod, getV_cylinder_bottom r h hi,
    cos_ringAngle_next (by omega) hi, sin_ringAngle_next (by omega) hi,
    Vec3.mk_sub_mk, Vec3.mk_sub_mk, cross_mk, Vec3.mk.injEq]
  have hΔ : (2 * Real.pi / N : ℝ) = ringAngle N (i + 1) - ringAngle N i :=
    (ringAngle_sub N i).symm
  rw [hΔ, Real.sin_sub]
  exact ⟨by ring, by ring, by ring⟩

theorem cylinder_top_faceNormal (r h : ℝ) {N i : ℕ} (hN : 3 ≤ N) (hi : i < N) :
    faceNormal (cylinderVertices r h N) (1, 2 + N + i, 2 + N + (i + 1) % N)
      = ⟨0, 0, r ^ 2 * Real.sin (2 * Real.pi / N)⟩ := by
  have hmod : (i + 1) % N < N := Nat.mod_lt _ (by omega)
  unfold faceNormal
  rw [show ((1 : ℕ), 2 + N + i, 2 + N + (i + 1) % N).1 = 1 from rfl,
    show ((1 : ℕ), 2 + N + i, 2 + N + (i + 1) % N).2.1 = 2 + N + i from rfl,
    show ((1 : ℕ), 2 + N + i, 2 + N + (i + 1) % N).2.2 = 2 + N + (i + 1) % N from rfl,
    getV_cylinder_c1, getV_cylinder_top r h hmod, getV_cylinder_top r h hi,
    cos_ringAngle_next (by omega) hi, sin_ringAngle_next (by omega) hi,
    Vec3.mk_sub_mk, Vec3.mk_sub_mk, cross_mk, Vec3.mk.injEq]
  have hΔ : (2 * Real.pi / N : ℝ) = ringAngle N (i + 1) - ringAngle N i :=
    (ringAngle_sub N i).symm
  rw [hΔ, Real.sin_sub]
  exact ⟨by ring, by ring, by ring⟩

/-- C5: every bottom-cap face of the cylinder has computed unit normal
`(0,0,-1)` and every top-cap face `(0,0,+1)` (exact real arithmetic);
in the spec's scenario `Cylinder(radius=1, height=2, segments=4)` the
mesh has 10 vertices and 16 faces. -/
theorem cylinder_cap_unit_normals (r h : ℝ) (N : ℕ)
    (hr : 0 < r) (_hh : 0 < h) (hN : 3 ≤ N) :
    (∀ f ∈ bottomCapFaces N,
      faceUnitNormal (create_cylinder_stl r h N).1 f = ⟨0, 0, -1⟩) ∧
    (∀ f ∈ topCapFaces N,
      faceUnitNormal (create_cylinder_stl r h N).1 f = ⟨0, 0, 1⟩) ∧
    (create_cylinder_stl 1 2 4).1.length = 10 ∧
    (create_cylinder_stl 1 2 4).2.length = 16 := by
  have hpos : 0 < r ^ 2 * Real.sin (2 * Real.pi / N) :=
    mul_pos (pow_pos hr 2) (sin_ring_delta_pos hN)
  have hvs : (create_cylinder_stl r h N).1 = cylinderVertices r h N := by
    rw [create_cylinder_stl, Nat.max_eq_right hN]
  refine ⟨?_, ?_, ?_, ?_⟩
  · intro f hf
    simp only [bottomCapFaces, List.mem_map, List.mem_range] at hf
    obtain ⟨i, hi, rfl⟩ := hf
    rw [hvs, faceUnitNormal, cylinder_bottom_faceNormal r h hN hi]
    exact normalize3_z_neg hpos
  · intro f hf
    simp only [topCapFaces, List.mem_map, List.mem_range] at hf
    obtain ⟨i, hi, rfl⟩ := hf
    rw [hvs, faceUnitNormal, cylinder_top_faceNormal r h hN hi]
    exact normalize3_z_pos hpos
  · rw [create_cylinder_stl, Nat.max_eq_right (by norm_num : (3 : ℕ) ≤ 4),
      cylinderVertices_length]
  · rw [create_cylinder_stl, Nat.max_eq_right (by norm_num : (3 : ℕ) ≤ 4),
      prismFaces_length]

/-- Witness for `cylinder_cap_unit_normals` at the spec scenario
r = 1, h = 2, N = 4. -/
theorem cylinder_cap_unit_normals_witness :
    (0 : ℝ) < 1 ∧ (0 : ℝ) < 2 ∧ 3 ≤ 4 ∧
    ((∀ f ∈ bottomCapFaces 4,
        faceUnitNormal (create_cylinder_stl 1 2 4).1 f = ⟨0, 0, -1⟩) ∧
     (∀ f ∈ topCapFaces 4,
        faceUnitNormal (create_cylinder_stl 1 2 4).1 f = ⟨0, 0, 1⟩) ∧
     (create_cylinder_stl 1 2 4).1.length = 10 ∧
     (create_cylinder_stl 1 2 4).2.length = 16) :=
  ⟨one_pos, two_pos, by decide,
    cylinder_cap_unit_normals 1 2 4 one_pos two_pos (by decide)⟩

/-! ### Sphere vertices lie on the sphere (claim C9) -/

theorem sphereVertices_norm (r : ℝ) (Nv Nh : ℕ) :
    ∀ v ∈ sphereVertices r Nv Nh, norm3 v = |r| := by
  intro v hv
  simp only [sphereVertices, List.mem_append, List.mem_cons, List.not_mem_nil,
    or_false, List.mem_flatMap, List.mem_map] at hv
  rcases hv with (rfl | ⟨i, _, j, _, rfl⟩) | rfl
  · unfold norm3
    rw [show ((0 : ℝ) ^ 2 + 0 ^ 2 + r ^ 2) = r ^ 2 from by ring,
      Real.sqrt_sq_eq_abs]
  · unfold norm3 spherePoint
    have h1 : Real.cos (azimuth Nh j) ^ 2 + Real.sin (azimuth Nh j) ^ 2 = 1 :=
      Real.cos_sq_add_sin_sq _
    have h2 : Real.cos (polarAngle Nv i) ^ 2 + Real.sin (polarAngle Nv i) ^ 2 = 1 :=
      Real.cos_sq_add_sin_sq _
    rw [show ((r * Real.sin (polarAngle Nv i) * Real.cos (azimuth Nh j)) ^ 2
        + (r * Real.sin (polarAngle Nv i) * Real.sin (azimuth Nh j)) ^ 2
        + (r * Real.cos (polarAngle Nv i)) ^ 2) = r ^ 2 from by
      linear_combination (r ^ 2 * Real.sin (polarAngle Nv i) ^ 2) * h1 + r ^ 2 * h2,
      Real.sqrt_sq_eq_abs]
  · unfold norm3
    rw [show ((0 : ℝ) ^ 2 + 0 ^ 2 + (-r) ^ 2) = r ^ 2 from by ring,
      Real.sqrt_sq_eq_abs]

/-- C9: every vertex returned by the sphere generator lies at exact
Euclidean distance `|radius|` from the origin. -/
theorem sphere_vertices_distance (r : ℝ) (nv nh : ℕ) :
    ∀ v ∈ (create_sphere_stl r nv nh).1, norm3 v = |r| :=
  fun v hv => sphereVertices_norm r _ _ v hv

/-- Witness for `sphere_vertices_distance`: the north pole of the unit
sphere. -/
theorem sphere_vertices_distance_witness :
    (⟨0, 0, 1⟩ : Vec3) ∈ (create_sphere_stl 1 3 3).1 ∧
    norm3 ⟨0, 0, 1⟩ = |(1 : ℝ)| := by
  have hm : (⟨0, 0, 1⟩ : Vec3) ∈ (create_sphere_stl 1 3 3).1 := by
    simp [create_sphere_stl, sphereVertices]
  exact ⟨hm, sphere_vertices_distance 1 3 3 _ hm⟩

/-! ### The spec §4.3 sphere construction (claim C4) -/

/-- Index of the `j`-th vertex on the spec's latitude ring `i ∈ [1,Nv)`:
vertex 0 is the north pole and rings are stored in band order, so ring
`i` starts at `1 + (i-1)·Nh`. -/
def specRingIdx (Nh i j : ℕ) : ℕ := 1 + (i - 1) * Nh + j

/-- Sphere vertices as worded in spec §4.3 with the §4.1 ring sampler:
index 0 = north pole `(0,0,r)`; for each latitude band `i ∈ [1,Nv)`,
polar angle `θ = π·i/Nv`, a ring of `Nh` vertices at `z = r·cos θ` with
ring radius `r·sin θ` and azimuth `φ = 2π·j/Nh`; final index = south
pole `(0,0,-r)`. -/
def specSphereVertices (r : ℝ) (Nv Nh : ℕ) : List Vec3 :=
  [⟨0, 0, r⟩]
    ++ (List.range' 1 (Nv - 1)).flatMap (fun i =>
        (List.range Nh).map (fun (j : ℕ) =>
          ⟨(r * Real.sin (Real.pi * i / Nv)) * Real.cos (2 * Real.pi * (j : ℝ) / Nh),
           (r * Real.sin (Real.pi * i / Nv)) * Real.sin (2 * Real.pi * (j : ℝ) / Nh),
           r * Real.cos (Real.pi * i / Nv)⟩))
    ++ [⟨0, 0, -r⟩]

/-- Sphere faces as worded in spec §4.3: north fan
`(pole, ring[next j], ring[j])`; for each adjacent pair of latitude
rings `(i, i+1)`, `i ∈ [1, Nv-1)`, the quads split as
`(cur[j], cur[next j], next_ring[next j])` and
`(cur[j], next_ring[next j], next_ring[j])`; south fan
`(ring[j], ring[next j], pole)`, in that list order. -/
def specSphereFaces (Nv Nh : ℕ) : List Face :=
  ((List.range Nh).map (fun j =>
      (0, specRingIdx Nh 1 ((j + 1) % Nh), specRingIdx Nh 1 j)))
  ++ ((List.range' 1 (Nv - 2)).flatMap (fun i =>
      (List.range Nh).flatMap (fun j =>
        [(specRingIdx Nh i j, specRingIdx Nh i ((j + 1) % Nh),
          specRingIdx Nh (i + 1) ((j + 1) % Nh)),
         (specRingIdx Nh i j, specRingIdx Nh (i + 1) ((j + 1) % Nh),
          specRingIdx Nh (i + 1) j)])))
  ++ ((List.range Nh).map (fun j =>
      (specRingIdx Nh (Nv - 1) j, specRingIdx Nh (Nv - 1) ((j + 1) % Nh),
       1 + (Nv - 1) * Nh)))

theorem flatMap_congr_left {α β : Type} {l : List α} {f g : α → List β}
    (h : ∀ a ∈ l, f a = g a) : l.flatMap f = l.flatMap g := by
  induction l with
  | nil => rfl
  | cons a l ih =>
      simp only [List.flatMap_cons]
      rw [h a (List.mem_cons_self a l), ih (fun b hb => h b (List.mem_cons_of_mem a hb))]

theorem sphereVertices_eq_spec (r : ℝ) (Nv Nh : ℕ) :
    sphereVertices r Nv Nh = specSphereVertices r Nv Nh := by
  unfold sphereVertices specSphereVertices
  have hF : (List.range' 1 (Nv - 1)).flatMap (fun i =>
        (List.range Nh).map (fun j => spherePoint r Nv Nh i j))
      = (List.range' 1 (Nv - 1)).flatMap (fun i =>
        (List.range Nh).map (fun (j : ℕ) =>
          (⟨(r * Real.sin (Real.pi * i / Nv)) * Real.cos (2 * Real.pi * (j : ℝ) / Nh),
            (r * Real.sin (Real.pi * i / Nv)) * Real.sin (2 * Real.pi * (j : ℝ) / Nh),
            r * Real.cos (Real.pi * i / Nv)⟩ : Vec3))) := by
    apply flatMap_congr_left
    intro i _
    apply List.map_congr_left
    intro j _
    unfold spherePoint polarAngle azimuth
    rw [Vec3.mk.injEq]
    exact ⟨by ring, by ring, rfl⟩
  rw [hF]

theorem sphereFaces_eq_spec (Nv Nh : ℕ) :
    sphereFaces Nv Nh = specSphereFaces Nv Nh := by
  unfold sphereFaces specSphereFaces sphereNorthFaces sphereMidFaces sphereSouthFaces
  have hN : (List.range Nh).map (fun j => ((0 : ℕ), 1 + (j + 1) % Nh, 1 + j))
      = (List.range Nh).map (fun j =>
          ((0 : ℕ), specRingIdx Nh 1 ((j + 1) % Nh), specRingIdx Nh 1 j)) := by
    apply List.map_congr_left
    intro j _
    unfold specRingIdx
    rw [Prod.mk.injEq, Prod.mk.injEq]
    refine ⟨rfl, by omega, by omega⟩
  have hM : (List.range (Nv - 2)).flatMap (fun i =>
        (List.range Nh).flatMap (fun j =>
          [(1 + i * Nh + j, 1 + i * Nh + (j + 1) % Nh,
            1 + (i + 1) * Nh + (j + 1) % Nh),
           (1 + i * Nh + j, 1 + (i + 1) * Nh + (j + 1) % Nh,
            1 + (i + 1) * Nh + j)]))
      = (List.range' 1 (Nv - 2)).flatMap (fun i =>
        (List.range Nh).flatMap (fun j =>
          [(specRingIdx Nh i j, specRingIdx Nh i ((j + 1) % Nh),
            specRingIdx Nh (i + 1) ((j + 1) % Nh)),
           (specRingIdx Nh i j, specRingIdx Nh (i + 1) ((j + 1) % Nh),
            specRingIdx Nh (i + 1) j)])) := by
    rw [List.range'_eq_map_range, List.flatMap_map]
    apply flatMap_congr_left
    intro a _
    apply flatMap_congr_left
    intro j _
    unfold specRingIdx
    rw [show (1 + a - 1) = a from by omega, show (1 + a + 1 - 1) = a + 1 from by omega]
  have hS : (List.range Nh).map (fun j =>
        (1 + (Nv - 2) * Nh + j, 1 + (Nv - 2) * Nh + (j + 1) % Nh, 1 + (Nv - 1) * Nh))
      = (List.range Nh).map (fun j =>
          (specRingIdx Nh (Nv - 1) j, specRingIdx Nh (Nv - 1) ((j + 1) % Nh),
           1 + (Nv - 1) * Nh)) := by
    apply List.map_congr_left
    intro j _
    unfold specRingIdx
    rw [show (Nv - 1 - 1) = Nv - 2 from by omega]
  rw [hN, hM, hS]

/-- C4: for every radius and clamped `Nv, Nh ≥ 3`, the sphere generator
builds exactly the spec §4.3 construction — same vertex list (north
pole, latitude rings, south pole with the stated coordinates) and the
same face list (north fan, band quads split into the stated two
triangles, south fan) in the same order. -/
theorem sphere_matches_spec_construction (r : ℝ) (Nv Nh : ℕ)
    (hNv : 3 ≤ Nv) (hNh : 3 ≤ Nh) :
    (create_sphere_stl r Nv Nh).1 = specSphereVertices r Nv Nh ∧
    (create_sphere_stl r Nv Nh).2 = specSphereFaces Nv Nh := by
  rw [create_sphere_stl, Nat.max_eq_right hNv, Nat.max_eq_right hNh]
  exact ⟨sphereVertices_eq_spec r Nv Nh, sphereFaces_eq_spec Nv Nh⟩

/-- Witness for `sphere_matches_spec_construction` at r = 1, Nv = Nh = 3. -/
theorem sphere_matches_spec_construction_witness :
    3 ≤ 3 ∧
    ((create_sphere_stl 1 3 3).1 = specSphereVertices 1 3 3 ∧
     (create_sphere_stl 1 3 3).2 = specSphereFaces 3 3) :=
  ⟨by decide, sphere_matches_spec_construction 1 3 3 (by decide) (by decide)⟩

/-! ### Sign of the normalized-normal dot product -/

theorem dot_mk (a b c d e f : ℝ) :
    dot ⟨a, b, c⟩ ⟨d, e, f⟩ = a * d + b * e + c * f := rfl

theorem smul3_mk (a x y z : ℝ) : smul3 a ⟨x, y, z⟩ = ⟨a * x, a * y, a * z⟩ := rfl

theorem faceNormal_mk (vs : List Vec3) (a b c : ℕ) :
    faceNormal vs (a, b, c) = cross (getV vs b - getV vs a) (getV vs c - getV vs a) := rfl

theorem centroid3_mk (vs : List Vec3) (a b c : ℕ) :
    centroid3 vs (a, b, c) = smul3 (1 / 3) (getV vs a + getV vs b + getV vs c) := rfl

theorem norm3_nonneg (v : Vec3) : 0 ≤ norm3 v := Real.sqrt_nonneg _

theorem dot_normalize3 (n m : Vec3) :
    dot (normalize3 n) m = dot n m / norm3 n := by
  unfold normalize3 dot
  show (n.x / norm3 n) * m.x + (n.y / norm3 n) * m.y + (n.z / norm3 n) * m.z
    = (n.x * m.x + n.y * m.y + n.z * m.z) / norm3 n
  ring

theorem norm3_pos_of_dot_ne {n m : Vec3} (h : dot n m ≠ 0) : 0 < norm3 n := by
  unfold norm3
  rw [Real.sqrt_pos]
  rcases lt_or_eq_of_le (by positivity : (0 : ℝ) ≤ n.x ^ 2 + n.y ^ 2 + n.z ^ 2) with hp | hp
  · exact hp
  · exfalso
    have hx : n.x = 0 := by nlinarith [sq_nonneg n.x, sq_nonneg n.y, sq_nonneg n.z]
    have hy : n.y = 0 := by nlinarith [sq_nonneg n.x, sq_nonneg n.y, sq_nonneg n.z]
    have hz : n.z = 0 := by nlinarith [sq_nonneg n.x, sq_nonneg n.y, sq_nonneg n.z]
    exact h (by unfold dot; rw [hx, hy, hz]; ring)

theorem faceOutward_of_dot_pos {vs : List Vec3} {f : Face} {c : Vec3}
    (h : 0 < dot (faceNormal vs f) (centroid3 vs f - c)) : FaceOutwardFrom vs f c := by
  unfold FaceOutwardFrom faceUnitNormal
  rw [dot_normalize3]
  exact div_pos h (norm3_pos_of_dot_ne h.ne')

theorem unit_dot_neg_of_dot_neg {vs : List Vec3} {f : Face} {c : Vec3}
    (h : dot (faceNormal vs f) (centroid3 vs f - c) < 0) :
    dot (faceUnitNormal vs f) (centroid3 vs f - c) < 0 := by
  unfold faceUnitNormal
  rw [dot_normalize3]
  exact div_neg_of_neg_of_pos h (norm3_pos_of_dot_ne h.ne)

/-! ### More trigonometric positivity facts -/

theorem azimuth_eq_ringAngle (Nh j : ℕ) : azimuth Nh j = ringAngle Nh j := rfl

theorem polarAngle_sub (Nv k : ℕ) :
    polarAngle Nv (k + 1) - polarAngle Nv k = Real.pi / Nv := by
  unfold polarAngle
  push_cast
  ring

theorem azimuth_sub (Nh j : ℕ) :
    azimuth Nh (j + 1) - azimuth Nh j = 2 * Real.pi / Nh := ringAngle_sub Nh j

theorem sin_polar_pos {Nv k : ℕ} (h1 : 1 ≤ k) (h2 : k < Nv) :
    0 < Real.sin (polarAngle Nv k) := by
  have hπ := Real.pi_pos
  have hNv : (0 : ℝ) < Nv := by exact_mod_cast Nat.lt_of_le_of_lt (Nat.zero_le k) h2
  have hk1 : (1 : ℝ) ≤ (k : ℝ) := by exact_mod_cast h1
  have hk2 : (k : ℝ) < (Nv : ℝ) := by exact_mod_cast h2
  apply Real.sin_pos_of_pos_of_lt_pi
  · unfold polarAngle
    positivity
  · unfold polarAngle
    rw [div_lt_iff₀ hNv]
    nlinarith

theorem sin_polar_delta_pos {Nv : ℕ} (hNv : 3 ≤ Nv) :
    0 < Real.sin (Real.pi / Nv) := by
  have hπ := Real.pi_pos
  have hNv0 : (0 : ℝ) < Nv := by exact_mod_cast Nat.lt_of_lt_of_le (by omega) hNv
  have h3 : (3 : ℝ) ≤ (Nv : ℝ) := by exact_mod_cast hNv
  apply Real.sin_pos_of_pos_of_lt_pi
  · positivity
  · rw [div_lt_iff₀ hNv0]
    nlinarith

theorem cos_azimuth_next {Nh j : ℕ} (hN : 0 < Nh) (hj : j < Nh) :
    Real.cos (azimuth Nh ((j + 1) % Nh)) = Real.cos (azimuth Nh (j + 1)) := by
  rw [azimuth_eq_ringAngle, azimuth_eq_ringAngle]
  exact cos_ringAngle_next hN hj

theorem sin_azimuth_next {Nh j : ℕ} (hN : 0 < Nh) (hj : j < Nh) :
    Real.sin (azimuth Nh ((j + 1) % Nh)) = Real.sin (azimuth Nh (j + 1)) := by
  rw [azimuth_eq_ringAngle, azimuth_eq_ringAngle]
  exact sin_ringAngle_next hN hj

/-! ### Vertex lookups: cone, frustum, sphere -/

theorem getV_cone_c0 (r h : ℝ) (N : ℕ) :
    getV (coneVertices r h N) 0 = ⟨0, 0, 0⟩ := rfl

theorem getV_cone_apex (r h : ℝ) (N : ℕ) :
    getV (coneVertices r h N) 1 = ⟨0, 0, h⟩ := rfl

theorem getV_cone_ring (r h : ℝ) {N i : ℕ} (hi : i < N) :
    getV (coneVertices r h N) (2 + i)
      = ⟨r * Real.cos (ringAngle N i), r * Real.sin (ringAngle N i), 0⟩ := by
  unfold getV coneVertices
  rw [List.getD_append_right _ _ _ _ (by simp),
    show 2 + i - ([(⟨0, 0, 0⟩ : Vec3), ⟨0, 0, h⟩]).length = i from by simp]
  exact getD_map_range _ _ hi

theorem getV_frustum_c0 (rb rt h : ℝ) (N : ℕ) :
    getV (frustumVertices rb rt h N) 0 = ⟨0, 0, 0⟩ := rfl

theorem getV_frustum_c1 (rb rt h : ℝ) (N : ℕ) :
    getV (frustumVertices rb rt h N) 1 = ⟨0, 0, h⟩ := rfl

theorem getV_frustum_bottom (rb rt h : ℝ) {N i : ℕ} (hi : i < N) :
    getV (frustumVertices rb rt h N) (2 + i)
      = ⟨rb * Real.cos (ringAngle N i), rb * Real.sin (ringAngle N i), 0⟩ := by
  unfold getV frustumVertices
  rw [List.append_assoc, List.getD_append_right _ _ _ _ (by simp),
    show 2 + i - ([(⟨0, 0, 0⟩ : Vec3), ⟨0, 0, h⟩]).length = i from by simp,
    List.getD_append _ _ _ _ (by simpa using hi)]
  exact getD_map_range _ _ hi

theorem getV_frustum_top (rb rt h : ℝ) {N i : ℕ} (hi : i < N) :
    getV (frustumVertices rb rt h N) (2 + N + i)
      = ⟨rt * Real.cos (ringAngle N i), rt * Real.sin (ringAngle N i), h⟩ := by
  unfold getV frustumVertices
  rw [List.append_assoc, List.getD_append_right _ _ _ _ (by simp; omega),
    show 2 + N + i - ([(⟨0, 0, 0⟩ : Vec3), ⟨0, 0, h⟩]).length = N + i
      from by simp; omega,
    List.getD_append_right _ _ _ _ (by simp),
    show N + i - ((List.range N).map (fun i =>
      (⟨rb * Real.cos (ringAngle N i), rb * Real.sin (ringAngle N i), 0⟩ : Vec3))).length
        = i from by simp]
  exact getD_map_range _ _ hi

theorem getV_sphere_north (r : ℝ) (Nv Nh : ℕ) :
    getV (sphereVertices r Nv Nh) 0 = ⟨0, 0, r⟩ := rfl

theorem getV_sphere_ring (r : ℝ) {Nv Nh i j : ℕ} (hi : i < Nv - 1) (hj : j < Nh) :
    getV (sphereVertices r Nv Nh) (1 + i * Nh + j) = spherePoint r Nv Nh (1 + i) j := by
  unfold getV sphereVertices
  rw [List.append_assoc, List.range'_eq_map_range, List.flatMap_map,
    List.getD_append_right _ _ _ _ (by simp; omega),
    show 1 + i * Nh + j - ([(⟨0, 0, r⟩ : Vec3)]).length = i * Nh + j
      from by simp; omega,
    List.getD_append _ _ _ _ (by
      rw [length_flatMap_range_map]
      have h2 : (i + 1) * Nh ≤ (Nv - 1) * Nh := Nat.mul_le_mul_right Nh (by omega)
      have h4 : i * Nh + Nh = (i + 1) * Nh := (Nat.succ_mul i Nh).symm
      omega)]
  exact getD_flatMap_range_map _ _ hi hj

theorem getV_sphere_south (r : ℝ) (Nv Nh : ℕ) :
    getV (sphereVertices r Nv Nh) (1 + (Nv - 1) * Nh) = ⟨0, 0, -r⟩ := by
  unfold getV sphereVertices
  rw [List.append_assoc, List.range'_eq_map_range, List.flatMap_map,
    List.getD_append_right _ _ _ _ (by simp),
    show 1 + (Nv - 1) * Nh - ([(⟨0, 0, r⟩ : Vec3)]).length = (Nv - 1) * Nh
      from by simp,
    List.getD_append_right _ _ _ _ (by rw [length_flatMap_range_map]),
    show (Nv - 1) * Nh - ((List.range (Nv - 1)).flatMap (fun a =>
      (List.range Nh).map (fun j => spherePoint r Nv Nh (1 + a) j))).length = 0
      from by rw [length_flatMap_range_map]; omega]
  rfl

/-! ### Face-normal dot products: cylinder (interior reference `(0,0,0)`) -/

theorem cyl_capB_dot (r h : ℝ) {N i : ℕ} (hN : 3 ≤ N) (hi : i < N) :
    dot (faceNormal (cylinderVertices r h N) (0, 2 + (i + 1) % N, 2 + i))
        (centroid3 (cylinderVertices r h N) (0, 2 + (i + 1) % N, 2 + i) - ⟨0, 0, 0⟩)
      = r ^ 2 * (h / 2) * Real.sin (2 * Real.pi / N) := by
  have hmod : (i + 1) % N < N := Nat.mod_lt _ (by omega)
  rw [faceNormal_mk, centroid3_mk, getV_cylinder_c0, getV_cylinder_bottom r h hmod,
    getV_cylinder_bottom r h hi, cos_ringAngle_next (by omega) hi,
    sin_ringAngle_next (by omega) hi, Vec3.mk_sub_mk, Vec3.mk_sub_mk, cross_mk,
    Vec3.mk_add_mk, Vec3.mk_add_mk, smul3_mk, Vec3.mk_sub_mk, dot_mk,
    show (2 * Real.pi / N : ℝ) = ringAngle N (i + 1) - ringAngle N i
      from (ringAngle_sub N i).symm,
    Real.sin_sub]
  ring

theorem cyl_capT_dot (r h : ℝ) {N i : ℕ} (hN : 3 ≤ N) (hi : i < N) :
    dot (faceNormal (cylinderVertices r h N) (1, 2 + N + i, 2 + N + (i + 1) % N))
        (centroid3 (cylinderVertices r h N) (1, 2 + N + i, 2 + N + (i + 1) % N)
          - ⟨0, 0, 0⟩)
      = r ^ 2 * (h / 2) * Real.sin (2 * Real.pi / N) := by
  have hmod : (i + 1) % N < N := Nat.mod_lt _ (by omega)
  rw [faceNormal_mk, centroid3_mk, getV_cylinder_c1, getV_cylinder_top r h hmod,
    getV_cylinder_top r h hi, cos_ringAngle_next (by omega) hi,
    sin_ringAngle_next (by omega) hi, Vec3.mk_sub_mk, Vec3.mk_sub_mk, cross_mk,
    Vec3.mk_add_mk, Vec3.mk_add_mk, smul3_mk, Vec3.mk_sub_mk, dot_mk,
    show (2 * Real.pi / N : ℝ) = ringAngle N (i + 1) - ringAngle N i
      from (ringAngle_sub N i).symm,
    Real.sin_sub]
  ring

theorem cyl_side1_dot (r h : ℝ) {N i : ℕ} (hN : 3 ≤ N) (hi : i < N) :
    dot (faceNormal (cylinderVertices r h N)
          (2 + i, 2 + (i + 1) % N, 2 + N + (i + 1) % N))
        (centroid3 (cylinderVertices r h N)
          (2 + i, 2 + (i + 1) % N, 2 + N + (i + 1) % N) - ⟨0, 0, 0⟩)
      = h * r ^ 2 * Real.sin (2 * Real.pi / N) := by
  have hmod : (i + 1) % N < N := Nat.mod_lt _ (by omega)
  rw [faceNormal_mk, centroid3_mk, getV_cylinder_bottom r h hi,
    getV_cylinder_bottom r h hmod, getV_cylinder_top r h hmod,
    cos_ringAngle_next (by omega) hi, sin_ringAngle_next (by omega) hi,
    Vec3.mk_sub_mk, Vec3.mk_sub_mk, cross_mk,
    Vec3.mk_add_mk, Vec3.mk_add_mk, smul3_mk, Vec3.mk_sub_mk, dot_mk,
    show (2 * Real.pi / N : ℝ) = ringAngle N (i + 1) - ringAngle N i
      from (ringAngle_sub N i).symm,
    Real.sin_sub]
  ring

theorem cyl_side2_dot (r h : ℝ) {N i : ℕ} (hN : 3 ≤ N) (hi : i < N) :
    dot (faceNormal (cylinderVertices r h N)
          (2 + i, 2 + N + (i + 1) % N, 2 + N + i))
        (centroid3 (cylinderVertices r h N)
          (2 + i, 2 + N + (i + 1) % N, 2 + N + i) - ⟨0, 0, 0⟩)
      = h * r ^ 2 * Real.sin (2 * Real.pi / N) := by
  have hmod : (i + 1) % N < N := Nat.mod_lt _ (by omega)
  rw [faceNormal_mk, centroid3_mk, getV_cylinder_bottom r h hi,
    getV_cylinder_top r h hmod, getV_cylinder_top r h hi,
    cos_ringAngle_next (by omega) hi, sin_ringAngle_next (by omega) hi,
    Vec3.mk_sub_mk, Vec3.mk_sub_mk, cross_mk,
    Vec3.mk_add_mk, Vec3.mk_add_mk, smul3_mk, Vec3.mk_sub_mk, dot_mk,
    show (2 * Real.pi / N : ℝ) = ringAngle N (i + 1) - ringAngle N i
      from (ringAngle_sub N i).symm,
    Real.sin_sub]
  ring

/-! ### Face-normal dot products: cone (interior reference `(0,0,h/4)`) -/

theorem cone_capB_dot (r h : ℝ) {N i : ℕ} (hN : 3 ≤ N) (hi : i < N) :
    dot (faceNormal (coneVertices r h N) (0, 2 + (i + 1) % N, 2 + i))
        (centroid3 (coneVertices r h N) (0, 2 + (i + 1) % N, 2 + i) - ⟨0, 0, h / 4⟩)
      = r ^ 2 * (h / 4) * Real.sin (2 * Real.pi / N) := by
  have hmod : (i + 1) % N < N := Nat.mod_lt _ (by omega)
  rw [faceNormal_mk, centroid3_mk, getV_cone_c0, getV_cone_ring r h hmod,
    getV_cone_ring r h hi, cos_ringAngle_next (by omega) hi,
    sin_ringAngle_next (by omega) hi, Vec3.mk_sub_mk, Vec3.mk_sub_mk, cross_mk,
    Vec3.mk_add_mk, Vec3.mk_add_mk, smul3_mk, Vec3.mk_sub_mk, dot_mk,
    show (2 * Real.pi / N : ℝ) = ringAngle N (i + 1) - ringAngle N i
      from (ringAngle_sub N i).symm,
    Real.sin_sub]
  ring

theorem cone_side_dot (r h : ℝ) {N i : ℕ} (hN : 3 ≤ N) (hi : i < N) :
    dot (faceNormal (coneVertices r h N) (2 + i, 2 + (i + 1) % N, 1))
        (centroid3 (coneVertices r h N) (2 + i, 2 + (i + 1) % N, 1) - ⟨0, 0, h / 4⟩)
      = h * r ^ 2 * (3 / 4) * Real.sin (2 * Real.pi / N) := by
  have hmod : (i + 1) % N < N := Nat.mod_lt _ (by omega)
  rw [faceNormal_mk, centroid3_mk, getV_cone_apex, getV_cone_ring r h hmod,
    getV_cone_ring r h hi, cos_ringAngle_next (by omega) hi,
    sin_ringAngle_next (by omega) hi, Vec3.mk_sub_mk, Vec3.mk_sub_mk, cross_mk,
    Vec3.mk_add_mk, Vec3.mk_add_mk, smul3_mk, Vec3.mk_sub_mk, dot_mk,
    show (2 * Real.pi / N : ℝ) = ringAngle N (i + 1) - ringAngle N i
      from (ringAngle_sub N i).symm,
    Real.sin_sub]
  ring

/-! ### Face-normal dot products: frustum (interior reference `(0,0,h/2)`) -/

theorem fru_capB_dot (rb rt h : ℝ) {N i : ℕ} (hN : 3 ≤ N) (hi : i < N) :
    dot (faceNormal (frustumVertices rb rt h N) (0, 2 + (i + 1) % N, 2 + i))
        (centroid3 (frustumVertices rb rt h N) (0, 2 + (i + 1) % N, 2 + i)
          - ⟨0, 0, h / 2⟩)
      = rb ^ 2 * (h / 2) * Real.sin (2 * Real.pi / N) := by
  have hmod : (i + 1) % N < N := Nat.mod_lt _ (by omega)
  rw [faceNormal_mk, centroid3_mk, getV_frustum_c0, getV_frustum_bottom rb rt h hmod,
    getV_frustum_bottom rb rt h hi, cos_ringAngle_next (by omega) hi,
    sin_ringAngle_next (by omega) hi, Vec3.mk_sub_mk, Vec3.mk_sub_mk, cross_mk,
    Vec3.mk_add_mk, Vec3.mk_add_mk, smul3_mk, Vec3.mk_sub_mk, dot_mk,
    show (2 * Real.pi / N : ℝ) = ringAngle N (i + 1) - ringAngle N i
      from (ringAngle_sub N i).symm,
    Real.sin_sub]
  ring

theorem fru_capT_dot (rb rt h : ℝ) {N i : ℕ} (hN : 3 ≤ N) (hi : i < N) :
    dot (faceNormal (frustumVertices rb rt h N) (1, 2 + N + i, 2 + N + (i + 1) % N))
        (centroid3 (frustumVertices rb rt h N) (1, 2 + N + i, 2 + N + (i + 1) % N)
          - ⟨0, 0, h / 2⟩)
      = rt ^ 2 * (h / 2) * Real.sin (2 * Real.pi / N) := by
  have hmod : (i + 1) % N < N := Nat.mod_lt _ (by omega)
  rw [faceNormal_mk, centroid3_mk, getV_frustum_c1, getV_frustum_top rb rt h hmod,
    getV_frustum_top rb rt h hi, cos_ringAngle_next (by omega) hi,
    sin_ringAngle_next (by omega) hi, Vec3.mk_sub_mk, Vec3.mk_sub_mk, cross_mk,
    Vec3.mk_add_mk, Vec3.mk_add_mk, smul3_mk, Vec3.mk_sub_mk, dot_mk,
    show (2 * Real.pi / N : ℝ) = ringAngle N (i + 1) - ringAngle N i
      from (ringAngle_sub N i).symm,
    Real.sin_sub]
  ring

theorem fru_side1_dot (rb rt h : ℝ) {N i : ℕ} (hN : 3 ≤ N) (hi : i < N) :
    dot (faceNormal (frustumVertices rb rt h N)
          (2 + i, 2 + (i + 1) % N, 2 + N + (i + 1) % N))
        (centroid3 (frustumVertices rb rt h N)
          (2 + i, 2 + (i + 1) % N, 2 + N + (i + 1) % N) - ⟨0, 0, h / 2⟩)
      = rb * (rb + rt) * (h / 2) * Real.sin (2 * Real.pi / N) := by
  have hmod : (i + 1) % N < N := Nat.mod_lt _ (by omega)
  rw [faceNormal_mk, centroid3_mk, getV_frustum_bottom rb rt h hi,
    getV_frustum_bottom rb rt h hmod, getV_frustum_top rb rt h hmod,
    cos_ringAngle_next (by omega) hi, sin_ringAngle_next (by omega) hi,
    Vec3.mk_sub_mk, Vec3.mk_sub_mk, cross_mk,
    Vec3.mk_add_mk, Vec3.mk_add_mk, smul3_mk, Vec3.mk_sub_mk, dot_mk,
    show (2 * Real.pi / N : ℝ) = ringAngle N (i + 1) - ringAngle N i
      from (ringAngle_sub N i).symm,
    Real.sin_sub]
  ring

theorem fru_side2_dot (rb rt h : ℝ) {N i : ℕ} (hN : 3 ≤ N) (hi : i < N) :
    dot (faceNormal (frustumVertices rb rt h N)
          (2 + i, 2 + N + (i + 1) % N, 2 + N + i))
        (centroid3 (frustumVertices rb rt h N)
          (2 + i, 2 + N + (i + 1) % N, 2 + N + i) - ⟨0, 0, h / 2⟩)
      = rt * (rb + rt) * (h / 2) * Real.sin (2 * Real.pi / N) := by
  have hmod : (i + 1) % N < N := Nat.mod_lt _ (by omega)
  rw [faceNormal_mk, centroid3_mk, getV_frustum_bottom rb rt h hi,
    getV_frustum_top rb rt h hmod, getV_frustum_top rb rt h hi,
    cos_ringAngle_next (by omega) hi, sin_ringAngle_next (by omega) hi,
    Vec3.mk_sub_mk, Vec3.mk_sub_mk, cross_mk,
    Vec3.mk_add_mk, Vec3.mk_add_mk, smul3_mk, Vec3.mk_sub_mk, dot_mk,
    show (2 * Real.pi / N : ℝ) = ringAngle N (i + 1) - ringAngle N i
      from (ringAngle_sub N i).symm,
    Real.sin_sub]
  ring

/-! ### Face-normal dot products: sphere (interior reference `(0,0,0)`).
All four families come out negative: the sphere's winding points the
computed normals toward the interior. -/

theorem spherePoint_def (r : ℝ) (Nv Nh i j : ℕ) :
    spherePoint r Nv Nh i j
      = ⟨r * Real.sin (polarAngle Nv i) * Real.cos (azimuth Nh j),
         r * Real.sin (polarAngle Nv i) * Real.sin (azimuth Nh j),
         r * Real.cos (polarAngle Nv i)⟩ := rfl

theorem getV_sphere_ring0 (r : ℝ) {Nv Nh j : ℕ} (hNv : 2 ≤ Nv) (hj : j < Nh) :
    getV (sphereVertices r Nv Nh) (1 + j) = spherePoint r Nv Nh 1 j := by
  have h := @getV_sphere_ring r Nv Nh 0 j (by omega) hj
  rw [show 1 + 0 * Nh + j = 1 + j from by omega] at h
  exact h

theorem getV_sphere_ring_last (r : ℝ) {Nv Nh j : ℕ} (hNv : 3 ≤ Nv) (hj : j < Nh) :
    getV (sphereVertices r Nv Nh) (1 + (Nv - 2) * Nh + j)
      = spherePoint r Nv Nh (Nv - 1) j := by
  have h := @getV_sphere_ring r Nv Nh (Nv - 2) j (by omega) hj
  rw [show (1 : ℕ) + (Nv - 2) = Nv - 1 from by omega] at h
  exact h

theorem sphere_north_dot (r : ℝ) {Nv Nh j : ℕ} (hNv : 3 ≤ Nv) (hNh : 3 ≤ Nh)
    (hj : j < Nh) :
    dot (faceNormal (sphereVertices r Nv Nh) (0, 1 + (j + 1) % Nh, 1 + j))
        (centroid3 (sphereVertices r Nv Nh) (0, 1 + (j + 1) % Nh, 1 + j)
          - ⟨0, 0, 0⟩)
      = -(r ^ 3 * Real.sin (polarAngle Nv 1) ^ 2 * Real.sin (2 * Real.pi / Nh)) := by
  have hmod : (j + 1) % Nh < Nh := Nat.mod_lt _ (by omega)
  have hr0 : getV (sphereVertices r Nv Nh) (1 + (j + 1) % Nh)
      = spherePoint r Nv Nh 1 ((j + 1) % Nh) := getV_sphere_ring0 r (by omega) hmod
  rw [faceNormal_mk, centroid3_mk, getV_sphere_north, hr0,
    getV_sphere_ring0 r (by omega) hj, spherePoint_def, spherePoint_def,
    cos_azimuth_next (by omega) hj, sin_azimuth_next (by omega) hj,
    Vec3.mk_sub_mk, Vec3.mk_sub_mk, cross_mk,
    Vec3.mk_add_mk, Vec3.mk_add_mk, smul3_mk, Vec3.mk_sub_mk, dot_mk,
    show (2 * Real.pi / Nh : ℝ) = azimuth Nh (j + 1) - azimuth Nh j
      from (azimuth_sub Nh j).symm,
    Real.sin_sub]
  ring

theorem sphere_mid1_dot (r : ℝ) {Nv Nh i j : ℕ} (hNv : 3 ≤ Nv) (hNh : 3 ≤ Nh)
    (hi : i < Nv - 2) (hj : j < Nh) :
    dot (faceNormal (sphereVertices r Nv Nh)
          (1 + i * Nh + j, 1 + i * Nh + (j + 1) % Nh,
           1 + (i + 1) * Nh + (j + 1) % Nh))
        (centroid3 (sphereVertices r Nv Nh)
          (1 + i * Nh + j, 1 + i * Nh + (j + 1) % Nh,
           1 + (i + 1) * Nh + (j + 1) % Nh) - ⟨0, 0, 0⟩)
      = -(r ^ 3 * Real.sin (polarAngle Nv (1 + i)) * Real.sin (2 * Real.pi / Nh)
            * Real.sin (Real.pi / Nv)) := by
  have hmod : (j + 1) % Nh < Nh := Nat.mod_lt _ (by omega)
  rw [faceNormal_mk, centroid3_mk,
    getV_sphere_ring r (show i < Nv - 1 from by omega) hj,
    getV_sphere_ring r (show i < Nv - 1 from by omega) hmod,
    getV_sphere_ring r (show i + 1 < Nv - 1 from by omega) hmod,
    show 1 + (i + 1) = 1 + i + 1 from rfl,
    spherePoint_def, spherePoint_def, spherePoint_def,
    cos_azimuth_next (by omega) hj, sin_azimuth_next (by omega) hj,
    Vec3.mk_sub_mk, Vec3.mk_sub_mk, cross_mk,
    Vec3.mk_add_mk, Vec3.mk_add_mk, smul3_mk, Vec3.mk_sub_mk, dot_mk,
    show (2 * Real.pi / Nh : ℝ) = azimuth Nh (j + 1) - azimuth Nh j
      from (azimuth_sub Nh j).symm,
    show (Real.pi / Nv : ℝ) = polarAngle Nv (1 + i + 1) - polarAngle Nv (1 + i)
      from (polarAngle_sub Nv (1 + i)).symm,
    Real.sin_sub, Real.sin_sub]
  ring

theorem sphere_mid2_dot (r : ℝ) {Nv Nh i j : ℕ} (hNv : 3 ≤ Nv) (hNh : 3 ≤ Nh)
    (hi : i < Nv - 2) (hj : j < Nh) :
    dot (faceNormal (sphereVertices r Nv Nh)
          (1 + i * Nh + j, 1 + (i + 1) * Nh + (j + 1) % Nh, 1 + (i + 1) * Nh + j))
        (centroid3 (sphereVertices r Nv Nh)
          (1 + i * Nh + j, 1 + (i + 1) * Nh + (j + 1) % Nh, 1 + (i + 1) * Nh + j)
          - ⟨0, 0, 0⟩)
      = -(r ^ 3 * Real.sin (polarAngle Nv (1 + i + 1)) * Real.sin (2 * Real.pi / Nh)
            * Real.sin (Real.pi / Nv)) := by
  have hmod : (j + 1) % Nh < Nh := Nat.mod_lt _ (by omega)
  rw [faceNormal_mk, centroid3_mk,
    getV_sphere_ring r (show i < Nv - 1 from by omega) hj,
    getV_sphere_ring r (show i + 1 < Nv - 1 from by omega) hmod,
    getV_sphere_ring r (show i + 1 < Nv - 1 from by omega) hj,
    show 1 + (i + 1) = 1 + i + 1 from rfl,
    spherePoint_def, spherePoint_def, spherePoint_def,
    cos_azimuth_next (by omega) hj, sin_azimuth_next (by omega) hj,
    Vec3.mk_sub_mk, Vec3.mk_sub_mk, cross_mk,
    Vec3.mk_add_mk, Vec3.mk_add_mk, smul3_mk, Vec3.mk_sub_mk, dot_mk,
    show (2 * Real.pi / Nh : ℝ) = azimuth Nh (j + 1) - azimuth Nh j
      from (azimuth_sub Nh j).symm,
    show (Real.pi / Nv : ℝ) = polarAngle Nv (1 + i + 1) - polarAngle Nv (1 + i)
      from (polarAngle_sub Nv (1 + i)).symm,
    Real.sin_sub, Real.sin_sub]
  ring

theorem sphere_south_dot (r : ℝ) {Nv Nh j : ℕ} (hNv : 3 ≤ Nv) (hNh : 3 ≤ Nh)
    (hj : j < Nh) :
    dot (faceNormal (sphereVertices r Nv Nh)
          (1 + (Nv - 2) * Nh + j, 1 + (Nv - 2) * Nh + (j + 1) % Nh,
           1 + (Nv - 1) * Nh))
        (centroid3 (sphereVertices r Nv Nh)
          (1 + (Nv - 2) * Nh + j, 1 + (Nv - 2) * Nh + (j + 1) % Nh,
           1 + (Nv - 1) * Nh) - ⟨0, 0, 0⟩)
      = -(r ^ 3 * Real.sin (polarAngle Nv (Nv - 1)) ^ 2
            * Real.sin (2 * Real.pi / Nh)) := by
  have hmod : (j + 1) % Nh < Nh := Nat.mod_lt _ (by omega)
  rw [faceNormal_mk, centroid3_mk,
    getV_sphere_ring_last r hNv hj, getV_sphere_ring_last r hNv hmod,
    getV_sphere_south, spherePoint_def, spherePoint_def,
    cos_azimuth_next (by omega) hj, sin_azimuth_next (by omega) hj,
    Vec3.mk_sub_mk, Vec3.mk_sub_mk, cross_mk,
    Vec3.mk_add_mk, Vec3.mk_add_mk, smul3_mk, Vec3.mk_sub_mk, dot_mk,
    show (2 * Real.pi / Nh : ℝ) = azimuth Nh (j + 1) - azimuth Nh j
      from (azimuth_sub Nh j).symm,
    Real.sin_sub]
  ring

/-! ### Claim C1: outward normals -/

/-- C1 (counterexample): the outward-normal invariant fails on the
sphere generator: for `create_sphere_stl` with radius 1, `Nv = 3`,
`Nh = 4`, the north-cap face `(0, 2, 1)` is in the face list but its
computed unit normal points toward the interior (its dot product with
the direction from the center to the face centroid is negative), so not
every face of every generator is outward. -/
theorem sphere_normals_counterexample :
    ¬ (∀ f ∈ (create_sphere_stl 1 3 4).2,
        FaceOutwardFrom (create_sphere_stl 1 3 4).1 f ⟨0, 0, 0⟩) := by
  intro hall
  have hmem : ((0 : ℕ), 2, 1) ∈ (create_sphere_stl 1 3 4).2 := by decide
  have hout : FaceOutwardFrom (sphereVertices 1 3 4) (0, 2, 1) ⟨0, 0, 0⟩ :=
    hall (0, 2, 1) hmem
  have hdot : dot (faceNormal (sphereVertices 1 3 4) (0, 2, 1))
      (centroid3 (sphereVertices 1 3 4) (0, 2, 1) - ⟨0, 0, 0⟩)
      = -((1 : ℝ) ^ 3 * Real.sin (polarAngle 3 1) ^ 2
          * Real.sin (2 * Real.pi / ((4 : ℕ) : ℝ))) :=
    @sphere_north_dot 1 3 4 0 (by decide) (by decide) (by decide)
  have hs1 : 0 < Real.sin (polarAngle 3 1) :=
    @sin_polar_pos 3 1 (by decide) (by decide)
  have hs2 : 0 < Real.sin (2 * Real.pi / ((4 : ℕ) : ℝ)) :=
    sin_ring_delta_pos (by decide)
  have hneg : dot (faceNormal (sphereVertices 1 3 4) (0, 2, 1))
      (centroid3 (sphereVertices 1 3 4) (0, 2, 1) - ⟨0, 0, 0⟩) < 0 := by
    rw [hdot]
    have hp : 0 < (1 : ℝ) ^ 3 * Real.sin (polarAngle 3 1) ^ 2
        * Real.sin (2 * Real.pi / ((4 : ℕ) : ℝ)) :=
      mul_pos (mul_pos (by norm_num) (pow_pos hs1 2)) hs2
    linarith
  have hcon := unit_dot_neg_of_dot_neg hneg
  unfold FaceOutwardFrom at hout
  linarith

/-- C1 (amended): with positive radii and height and clamped segment
counts, every face of the cylinder, cone and frustum generators has its
computed unit normal pointing away from the solid's interior (positive
dot product with the direction from an interior axis point to the face
centroid: `(0,0,0)` for the cylinder, `(0,0,h/4)` for the cone,
`(0,0,h/2)` for the frustum) — but every face of the sphere generator
has its computed unit normal pointing toward the interior (that dot
product, taken from the center `(0,0,0)`, is negative). -/
theorem outward_normals_amended (r h rb rt : ℝ) (N Nv Nh : ℕ)
    (hr : 0 < r) (hh : 0 < h) (hrb : 0 < rb) (hrt : 0 < rt)
    (hN : 3 ≤ N) (hNv : 3 ≤ Nv) (hNh : 3 ≤ Nh) :
    (∀ f ∈ (create_cylinder_stl r h N).2,
        FaceOutwardFrom (create_cylinder_stl r h N).1 f ⟨0, 0, 0⟩) ∧
    (∀ f ∈ (create_cone_stl r h N).2,
        FaceOutwardFrom (create_cone_stl r h N).1 f ⟨0, 0, h / 4⟩) ∧
    (∀ f ∈ (create_cone_with_top_stl rb rt h N).2,
        FaceOutwardFrom (create_cone_with_top_stl rb rt h N).1 f ⟨0, 0, h / 2⟩) ∧
    (∀ f ∈ (create_sphere_stl r Nv Nh).2,
        dot (faceUnitNormal (create_sphere_stl r Nv Nh).1 f)
          (centroid3 (create_sphere_stl r Nv Nh).1 f - ⟨0, 0, 0⟩) < 0) := by
  have hS : 0 < Real.sin (2 * Real.pi / N) := sin_ring_delta_pos hN
  have hSh : 0 < Real.sin (2 * Real.pi / Nh) := sin_ring_delta_pos hNh
  have hSv : 0 < Real.sin (Real.pi / Nv) := sin_polar_delta_pos hNv
  refine ⟨?_, ?_, ?_, ?_⟩
  · rw [create_cylinder_stl, Nat.max_eq_right hN]
    intro f hf
    rcases prismFaces_cases hf with ⟨i, hi, rfl⟩ | ⟨i, hi, rfl⟩ | ⟨i, hi, rfl | rfl⟩
    · exact faceOutward_of_dot_pos (by
        rw [cyl_capB_dot r h hN hi]
        exact mul_pos (mul_pos (pow_pos hr 2) (by linarith)) hS)
    · exact faceOutward_of_dot_pos (by
        rw [cyl_capT_dot r h hN hi]
        exact mul_pos (mul_pos (pow_pos hr 2) (by linarith)) hS)
    · exact faceOutward_of_dot_pos (by
        rw [cyl_side1_dot r h hN hi]
        exact mul_pos (mul_pos hh (pow_pos hr 2)) hS)
    · exact faceOutward_of_dot_pos (by
        rw [cyl_side2_dot r h hN hi]
        exact mul_pos (mul_pos hh (pow_pos hr 2)) hS)
  · rw [create_cone_stl, Nat.max_eq_right hN]
    intro f hf
    rcases coneFaces_cases hf with ⟨i, hi, rfl⟩ | ⟨i, hi, rfl⟩
    · exact faceOutward_of_dot_pos (by
        rw [cone_capB_dot r h hN hi]
        exact mul_pos (mul_pos (pow_pos hr 2) (by linarith)) hS)
    · exact faceOutward_of_dot_pos (by
        rw [cone_side_dot r h hN hi]
        exact mul_pos (mul_pos (mul_pos hh (pow_pos hr 2)) (by norm_num)) hS)
  · rw [create_cone_with_top_stl, Nat.max_eq_right hN]
    intro f hf
    rcases prismFaces_cases hf with ⟨i, hi, rfl⟩ | ⟨i, hi, rfl⟩ | ⟨i, hi, rfl | rfl⟩
    · exact faceOutward_of_dot_pos (by
        rw [fru_capB_dot rb rt h hN hi]
        exact mul_pos (mul_pos (pow_pos hrb 2) (by linarith)) hS)
    · exact faceOutward_of_dot_pos (by
        rw [fru_capT_dot rb rt h hN hi]
        exact mul_pos (mul_pos (pow_pos hrt 2) (by linarith)) hS)
    · exact faceOutward_of_dot_pos (by
        rw [fru_side1_dot rb rt h hN hi]
        exact mul_pos (mul_pos (mul_pos hrb (by linarith)) (by linarith)) hS)
    · exact faceOutward_of_dot_pos (by
        rw [fru_side2_dot rb rt h hN hi]
        exact mul_pos (mul_pos (mul_pos hrt (by linarith)) (by linarith)) hS)
  · rw [create_sphere_stl, Nat.max_eq_right hNv, Nat.max_eq_right hNh]
    intro f hf
    rcases sphereFaces_cases hf with ⟨j, hj, rfl⟩ | ⟨i, j, hi, hj, rfl | rfl⟩ | ⟨j, hj, rfl⟩
    · apply unit_dot_neg_of_dot_neg
      rw [sphere_north_dot r hNv hNh hj]
      have hp : 0 < r ^ 3 * Real.sin (polarAngle Nv 1) ^ 2 * Real.sin (2 * Real.pi / Nh) :=
        mul_pos (mul_pos (pow_pos hr 3)
          (pow_pos (sin_polar_pos (by omega) (by omega)) 2)) hSh
      linarith
    · apply unit_dot_neg_of_dot_neg
      rw [sphere_mid1_dot r hNv hNh hi hj]
      have hp : 0 < r ^ 3 * Real.sin (polarAngle Nv (1 + i))
          * Real.sin (2 * Real.pi / Nh) * Real.sin (Real.pi / Nv) :=
        mul_pos (mul_pos (mul_pos (pow_pos hr 3)
          (sin_polar_pos (by omega) (by omega))) hSh) hSv
      linarith
    · apply unit_dot_neg_of_dot_neg
      rw [sphere_mid2_dot r hNv hNh hi hj]
      have hp : 0 < r ^ 3 * Real.sin (polarAngle Nv (1 + i + 1))
          * Real.sin (2 * Real.pi / Nh) * Real.sin (Real.pi / Nv) :=
        mul_pos (mul_pos (mul_pos (pow_pos hr 3)
          (sin_polar_pos (by omega) (by omega))) hSh) hSv
      linarith
    · apply unit_dot_neg_of_dot_neg
      rw [sphere_south_dot r hNv hNh hj]
      have hp : 0 < r ^ 3 * Real.sin (polarAngle Nv (Nv - 1)) ^ 2
          * Real.sin (2 * Real.pi / Nh) :=
        mul_pos (mul_pos (pow_pos hr 3)
          (pow_pos (sin_polar_pos (by omega) (by omega)) 2)) hSh
      linarith

/-- Witness for `outward_normals_amended` at radii and height 1 and all
segment counts 3. -/
theorem outward_normals_amended_witness :
    (0 : ℝ) < 1 ∧ 3 ≤ 3 ∧
    ((∀ f ∈ (create_cylinder_stl 1 1 3).2,
        FaceOutwardFrom (create_cylinder_stl 1 1 3).1 f ⟨0, 0, 0⟩) ∧
     (∀ f ∈ (create_cone_stl 1 1 3).2,
        FaceOutwardFrom (create_cone_stl 1 1 3).1 f ⟨0, 0, 1 / 4⟩) ∧
     (∀ f ∈ (create_cone_with_top_stl 1 1 1 3).2,
        FaceOutwardFrom (create_cone_with_top_stl 1 1 1 3).1 f ⟨0, 0, 1 / 2⟩) ∧
     (∀ f ∈ (create_sphere_stl 1 3 3).2,
        dot (faceUnitNormal (create_sphere_stl 1 3 3).1 f)
          (centroid3 (create_sphere_stl 1 3 3).1 f - ⟨0, 0, 0⟩) < 0)) :=
  ⟨one_pos, by decide,
    outward_normals_amended 1 1 1 1 3 3 3 one_pos one_pos one_pos one_pos
      (by decide) (by decide) (by decide)⟩

/-! ### Claim C2: closure (watertightness).

Every undirected edge that occurs in a generated face list occurs in
exactly two of its faces.  The proof is via the directed edge list: it
has no duplicates, and it is invariant (as a multiset) under reversing
every edge, so each occurring directed edge appears exactly once and so
does its reverse — giving exactly two incident faces. -/

/-- The three directed edges of a face, in winding order. -/
def edgesOf (f : Face) : List (ℕ × ℕ) := [(f.1, f.2.1), (f.2.1, f.2.2), (f.2.2, f.1)]

/-- All directed edges of a face list. -/
def edgeList (faces : List Face) : List (ℕ × ℕ) := faces.flatMap edgesOf

/-- The face `f` has `{a, b}` as an (undirected) edge. -/
def HasEdge (f : Face) (a b : ℕ) : Prop :=
  (a, b) ∈ edgesOf f ∨ (b, a) ∈ edgesOf f

instance (f : Face) (a b : ℕ) : Decidable (HasEdge f a b) :=
  inferInstanceAs (Decidable ((a, b) ∈ edgesOf f ∨ (b, a) ∈ edgesOf f))

/-- A face list is closed (watertight): every undirected edge of one of
its faces belongs to exactly two of its faces. -/
def IsClosed (faces : List Face) : Prop :=
  ∀ a b : ℕ, (∃ f ∈ faces, HasEdge f a b) →
    faces.countP (fun f => decide (HasEdge f a b)) = 2

theorem per_face_one {a b : ℕ} (_hab : a ≠ b) {f : Face} (hd : FaceDistinct f)
    (hE : HasEdge f a b) :
    (edgesOf f).countP (fun e => decide (e = (a, b) ∨ e = (b, a))) = 1 := by
  obtain ⟨x, y, z⟩ := f
  have h1 : x ≠ y := hd.1
  have h2 : y ≠ z := hd.2.1
  have h3 : z ≠ x := hd.2.2
  have hE' : ((a, b) = (x, y) ∨ (a, b) = (y, z) ∨ (a, b) = (z, x)) ∨
      ((b, a) = (x, y) ∨ (b, a) = (y, z) ∨ (b, a) = (z, x)) := by
    simpa only [HasEdge, edgesOf, List.mem_cons, List.not_mem_nil, or_false] using hE
  simp only [Prod.mk.injEq] at hE'
  simp only [edgesOf, List.countP_cons, List.countP_nil, decide_eq_true_eq,
    Prod.mk.injEq]
  split_ifs <;> omega

theorem per_face_zero {a b : ℕ} {f : Face} (hE : ¬ HasEdge f a b) :
    (edgesOf f).countP (fun e => decide (e = (a, b) ∨ e = (b, a))) = 0 := by
  rw [List.countP_eq_zero]
  intro e he
  simp only [decide_eq_true_eq]
  rintro (rfl | rfl)
  · exact hE (Or.inl he)
  · exact hE (Or.inr he)

theorem countP_edgeList_eq {a b : ℕ} (hab : a ≠ b) :
    ∀ (faces : List Face), (∀ f ∈ faces, FaceDistinct f) →
      (edgeList faces).countP (fun e => decide (e = (a, b) ∨ e = (b, a)))
        = faces.countP (fun f => decide (HasEdge f a b)) := by
  intro faces
  induction faces with
  | nil => intro _; rfl
  | cons f fs ih =>
      intro hd
      have hface : edgeList (f :: fs) = edgesOf f ++ edgeList fs := rfl
      rw [hface, List.countP_append, List.countP_cons,
        ih (fun g hg => hd g (List.mem_cons_of_mem f hg))]
      by_cases hE : HasEdge f a b
      · rw [per_face_one hab (hd f (List.mem_cons_self f fs)) hE,
          decide_eq_true hE]
        simp [Nat.add_comm]
      · rw [per_face_zero hE, decide_eq_false hE]
        simp

theorem countP_pair (l : List (ℕ × ℕ)) {e1 e2 : ℕ × ℕ} (hne : e1 ≠ e2) :
    l.countP (fun e => decide (e = e1 ∨ e = e2))
      = l.countP (fun e => decide (e = e1)) + l.countP (fun e => decide (e = e2)) := by
  induction l with
  | nil => rfl
  | cons x l ih =>
      rw [List.countP_cons, List.countP_cons, List.countP_cons, ih]
      simp only [decide_eq_true_eq]
      split_ifs <;> simp_all <;> omega

theorem countP_le_one_of_nodup {α : Type} [DecidableEq α] {l : List α}
    (h : l.Nodup) (x : α) : l.countP (fun e => decide (e = x)) ≤ 1 := by
  induction l with
  | nil => simp
  | cons a l ih =>
      rw [List.countP_cons]
      rcases List.nodup_cons.mp h with ⟨hna, hnl⟩
      by_cases hax : a = x
      · subst hax
        have h0 : l.countP (fun e => decide (e = a)) = 0 := by
          rw [List.countP_eq_zero]
          intro e he
          simp only [decide_eq_true_eq]
          intro heq
          exact hna (heq ▸ he)
        simp [h0]
      · rw [decide_eq_false hax]
        simpa using ih hnl

theorem one_le_countP_of_mem {α : Type} [DecidableEq α] {l : List α} {x : α}
    (h : x ∈ l) : 1 ≤ l.countP (fun e => decide (e = x)) :=
  List.countP_pos_iff.mpr ⟨x, h, by simp⟩

theorem count_coe_countP {α : Type} [DecidableEq α] (l : List α) (x : α) :
    Multiset.count x (↑l : Multiset α) = l.countP (fun e => decide (e = x)) := by
  rw [Multiset.coe_count, List.count_eq_countP]
  rfl

/-- The closure criterion: pairwise-distinct vertex indices in every
face, no duplicate directed edge, and reversal-invariance of the
directed-edge multiset imply the mesh is closed. -/
theorem isClosed_of {faces : List Face}
    (hdist : ∀ f ∈ faces, FaceDistinct f)
    (hnd : (edgeList faces).Nodup)
    (hswap : Multiset.map Prod.swap (↑(edgeList faces) : Multiset (ℕ × ℕ))
      = ↑(edgeList faces)) :
    IsClosed faces := by
  rintro a b ⟨f0, hf0, he0⟩
  have hab : a ≠ b := by
    have hd := hdist f0 hf0
    obtain ⟨x, y, z⟩ := f0
    have h1 : x ≠ y := hd.1
    have h2 : y ≠ z := hd.2.1
    have h3 : z ≠ x := hd.2.2
    rcases he0 with h | h <;>
      simp only [edgesOf, List.mem_cons, List.not_mem_nil, or_false,
        Prod.mk.injEq] at h <;> omega
  have hc1 : (edgeList faces).countP (fun e => decide (e = (a, b))) ≤ 1 :=
    countP_le_one_of_nodup hnd _
  have hc2 : (edgeList faces).countP (fun e => decide (e = (b, a))) ≤ 1 :=
    countP_le_one_of_nodup hnd _
  have hsym : (edgeList faces).countP (fun e => decide (e = (a, b)))
      = (edgeList faces).countP (fun e => decide (e = (b, a))) := by
    have h2 := Multiset.count_map_eq_count' (Prod.swap)
      (↑(edgeList faces) : Multiset (ℕ × ℕ)) Prod.swap_injective (b, a)
    rw [hswap] at h2
    have h3 : Prod.swap ((b : ℕ), (a : ℕ)) = (a, b) := rfl
    rw [h3, count_coe_countP, count_coe_countP] at h2
    exact h2
  have hocc : 1 ≤ (edgeList faces).countP (fun e => decide (e = (a, b)))
      + (edgeList faces).countP (fun e => decide (e = (b, a))) := by
    rcases he0 with h | h
    · have hm : (a, b) ∈ edgeList faces := List.mem_flatMap.mpr ⟨f0, hf0, h⟩
      have := one_le_countP_of_mem hm
      omega
    · have hm : (b, a) ∈ edgeList faces := List.mem_flatMap.mpr ⟨f0, hf0, h⟩
      have := one_le_countP_of_mem hm
      omega
  have hpair : ((a : ℕ), (b : ℕ)) ≠ (b, a) := by
    rw [Ne, Prod.mk.injEq]
    omega
  have hcnt := countP_pair (edgeList faces) hpair
  have hkey := countP_edgeList_eq hab faces hdist
  omega

/-! ### Decomposing each generator's directed-edge list -/

theorem edgeList_append (l1 l2 : List Face) :
    edgeList (l1 ++ l2) = edgeList l1 ++ edgeList l2 :=
  List.flatMap_append l1 l2 edgesOf

theorem edgeList_map_range (N : ℕ) (g : ℕ → Face) :
    edgeList ((List.range N).map g)
      = (List.range N).flatMap (fun i => edgesOf (g i)) := by
  rw [edgeList, List.flatMap_map]

theorem edgeList_flatMap_pair (N : ℕ) (g1 g2 : ℕ → Face) :
    edgeList ((List.range N).flatMap (fun i => [g1 i, g2 i]))
      = (List.range N).flatMap (fun i => edgesOf (g1 i) ++ edgesOf (g2 i)) := by
  rw [edgeList, List.flatMap_assoc]
  exact flatMap_congr_left (fun i _ => by
    simp [List.flatMap_cons, List.flatMap_nil])

/-! ### Multiset summation helpers -/

theorem coe_flatMap_range {α : Type} (N : ℕ) (g : ℕ → List α) :
    (↑((List.range N).flatMap g) : Multiset α)
      = ∑ i ∈ Finset.range N, (↑(g i) : Multiset α) := by
  induction N with
  | zero => rfl
  | succ m ih =>
      rw [List.range_succ, List.flatMap_append, List.flatMap_singleton,
        ← Multiset.coe_add, ih, Finset.sum_range_succ]

theorem map_sum_range {α β : Type} (f : α → β) (N : ℕ) (F : ℕ → Multiset α) :
    Multiset.map f (∑ i ∈ Finset.range N, F i)
      = ∑ i ∈ Finset.range N, Multiset.map f (F i) := by
  induction N with
  | zero => rfl
  | succ m ih =>
      rw [Finset.sum_range_succ, Finset.sum_range_succ, Multiset.map_add, ih]

/-- Re-indexing a sum over `range N` along the wrap-around successor. -/
theorem sum_range_rot {α : Type} (N : ℕ) (F : ℕ → Multiset α) :
    ∑ i ∈ Finset.range N, F ((i + 1) % N) = ∑ i ∈ Finset.range N, F i := by
  rcases Nat.eq_zero_or_pos N with rfl | hN
  · rfl
  · obtain ⟨m, rfl⟩ : ∃ m, N = m + 1 := ⟨N - 1, by omega⟩
    rw [Finset.sum_range_succ, Finset.sum_range_succ' F m]
    have hlast : (m + 1) % (m + 1) = 0 := Nat.mod_self _
    rw [hlast]
    have hmain : ∑ i ∈ Finset.range m, F ((i + 1) % (m + 1))
        = ∑ i ∈ Finset.range m, F (i + 1) :=
      Finset.sum_congr rfl (fun i hi => by
        rw [Nat.mod_eq_of_lt (by simp at hi; omega)])
    rw [hmain]

/-- Shifting a sum over ring levels by one. -/
theorem sum_range_shift {α : Type} (L : ℕ) (X : ℕ → Multiset α) :
    ∑ i ∈ Finset.range L, X (i + 1) + X 0
      = ∑ i ∈ Finset.range L, X i + X L := by
  have h1 := Finset.sum_range_succ X L
  have h2 := Finset.sum_range_succ' X L
  exact h2.symm.trans h1

/-! ### Closure of the cone mesh -/

theorem edgeList_cone (N : ℕ) :
    edgeList (coneFaces N)
      = ((List.range N).flatMap (fun i =>
          [((0 : ℕ), 2 + (i + 1) % N), (2 + (i + 1) % N, 2 + i), (2 + i, 0)]))
      ++ ((List.range N).flatMap (fun i =>
          [(2 + i, 2 + (i + 1) % N), (2 + (i + 1) % N, 1), ((1 : ℕ), 2 + i)])) := by
  rw [coneFaces, edgeList_append, bottomCapFaces, coneSideFaces,
    edgeList_map_range, edgeList_map_range]
  rfl

theorem cone_edge_nodup {N : ℕ} (hN : 3 ≤ N) : (edgeList (coneFaces N)).Nodup := by
  rw [edgeList_cone, List.nodup_append]
  refine ⟨?_, ?_, ?_⟩
  · rw [List.nodup_flatMap]
    constructor
    · intro i hi
      simp only [List.mem_range] at hi
      rcases next_spec N i hi with ⟨e1, l1⟩ | ⟨e1, l1⟩ <;>
        simp [e1, Prod.mk.injEq] <;> try omega
    · rw [List.pairwise_iff_getElem]
      intro i j hi hj hij
      simp only [List.length_range] at hi hj
      simp only [List.getElem_range]
      intro e he1 he2
      simp only [List.mem_cons, List.not_mem_nil, or_false] at he1 he2
      rcases next_spec N i (by omega) with ⟨e1, l1⟩ | ⟨e1, l1⟩ <;>
        rcases next_spec N j (by omega) with ⟨e2, l2⟩ | ⟨e2, l2⟩ <;>
          rcases he1 with rfl | rfl | rfl <;>
            rcases he2 with h | h | h <;>
              simp only [Prod.mk.injEq, e1, e2] at h <;> omega
  · rw [List.nodup_flatMap]
    constructor
    · intro i hi
      simp only [List.mem_range] at hi
      rcases next_spec N i hi with ⟨e1, l1⟩ | ⟨e1, l1⟩ <;>
        simp [e1, Prod.mk.injEq] <;> try omega
    · rw [List.pairwise_iff_getElem]
      intro i j hi hj hij
      simp only [List.length_range] at hi hj
      simp only [List.getElem_range]
      intro e he1 he2
      simp only [List.mem_cons, List.not_mem_nil, or_false] at he1 he2
      rcases next_spec N i (by omega) with ⟨e1, l1⟩ | ⟨e1, l1⟩ <;>
        rcases next_spec N j (by omega) with ⟨e2, l2⟩ | ⟨e2, l2⟩ <;>
          rcases he1 with rfl | rfl | rfl <;>
            rcases he2 with h | h | h <;>
              simp only [Prod.mk.injEq, e1, e2] at h <;> omega
  · intro e he1 he2
    simp only [List.mem_flatMap, List.mem_range, List.mem_cons, List.not_mem_nil,
      or_false] at he1 he2
    obtain ⟨i, hi, hei⟩ := he1
    obtain ⟨j, hj, hej⟩ := he2
    rcases next_spec N i hi with ⟨e1, l1⟩ | ⟨e1, l1⟩ <;>
      rcases next_spec N j hj with ⟨e2, l2⟩ | ⟨e2, l2⟩ <;>
        rcases hei with rfl | rfl | rfl <;>
          rcases hej with h | h | h <;>
            simp only [Prod.mk.injEq, e1, e2] at h <;> omega

theorem cone_edge_swap (N : ℕ) :
    Multiset.map Prod.swap (↑(edgeList (coneFaces N)) : Multiset (ℕ × ℕ))
      = ↑(edgeList (coneFaces N)) := by
  rw [edgeList_cone, ← Multiset.coe_add, coe_flatMap_range, coe_flatMap_range,
    Multiset.map_add, map_sum_range, map_sum_range]
  show (∑ i ∈ Finset.range N,
        (({((2 + (i + 1) % N : ℕ), (0 : ℕ))} : Multiset (ℕ × ℕ))
          + {((2 + i : ℕ), 2 + (i + 1) % N)} + {((0 : ℕ), 2 + i)}))
      + (∑ i ∈ Finset.range N,
        (({((2 + (i + 1) % N : ℕ), (2 + i : ℕ))} : Multiset (ℕ × ℕ))
          + {((1 : ℕ), 2 + (i + 1) % N)} + {((2 + i : ℕ), (1 : ℕ))}))
    = (∑ i ∈ Finset.range N,
        (({((0 : ℕ), (2 + (i + 1) % N : ℕ))} : Multiset (ℕ × ℕ))
          + {((2 + (i + 1) % N : ℕ), 2 + i)} + {((2 + i : ℕ), (0 : ℕ))}))
      + (∑ i ∈ Finset.range N,
        (({((2 + i : ℕ), (2 + (i + 1) % N : ℕ))} : Multiset (ℕ × ℕ))
          + {((2 + (i + 1) % N : ℕ), (1 : ℕ))} + {((1 : ℕ), 2 + i)}))
  rw [Finset.sum_add_distrib, Finset.sum_add_distrib, Finset.sum_add_distrib,
    Finset.sum_add_distrib, Finset.sum_add_distrib, Finset.sum_add_distrib,
    Finset.sum_add_distrib, Finset.sum_add_distrib]
  have hr1 : (∑ i ∈ Finset.range N,
        ({((2 + (i + 1) % N : ℕ), (0 : ℕ))} : Multiset (ℕ × ℕ)))
      = ∑ i ∈ Finset.range N, ({((2 + i : ℕ), (0 : ℕ))} : Multiset (ℕ × ℕ)) :=
    sum_range_rot N (fun k => {((2 + k : ℕ), (0 : ℕ))})
  have hr2 : (∑ i ∈ Finset.range N,
        ({((1 : ℕ), (2 + (i + 1) % N : ℕ))} : Multiset (ℕ × ℕ)))
      = ∑ i ∈ Finset.range N, ({((1 : ℕ), (2 + i : ℕ))} : Multiset (ℕ × ℕ)) :=
    sum_range_rot N (fun k => {((1 : ℕ), (2 + k : ℕ))})
  have hr3 : (∑ i ∈ Finset.range N,
        ({((0 : ℕ), (2 + (i + 1) % N : ℕ))} : Multiset (ℕ × ℕ)))
      = ∑ i ∈ Finset.range N, ({((0 : ℕ), (2 + i : ℕ))} : Multiset (ℕ × ℕ)) :=
    sum_range_rot N (fun k => {((0 : ℕ), (2 + k : ℕ))})
  have hr4 : (∑ i ∈ Finset.range N,
        ({((2 + (i + 1) % N : ℕ), (1 : ℕ))} : Multiset (ℕ × ℕ)))
      = ∑ i ∈ Finset.range N, ({((2 + i : ℕ), (1 : ℕ))} : Multiset (ℕ × ℕ)) :=
    sum_range_rot N (fun k => {((2 + k : ℕ), (1 : ℕ))})
  rw [hr1, hr2, hr3, hr4]
  abel

theorem cone_isClosed {N : ℕ} (hN : 3 ≤ N) : IsClosed (coneFaces N) :=
  isClosed_of (coneFaces_distinct hN) (cone_edge_nodup hN) (cone_edge_swap N)

/-! ### Closure of the prism (cylinder / frustum) mesh -/

theorem edgeList_prism (N : ℕ) :
    edgeList (prismFaces N)
      = ((List.range N).flatMap (fun i =>
          [((0 : ℕ), 2 + (i + 1) % N), (2 + (i + 1) % N, 2 + i), (2 + i, 0)]))
      ++ ((List.range N).flatMap (fun i =>
          [((1 : ℕ), 2 + N + i), (2 + N + i, 2 + N + (i + 1) % N),
           (2 + N + (i + 1) % N, 1)]))
      ++ ((List.range N).flatMap (fun i =>
          [(2 + i, 2 + (i + 1) % N), (2 + (i + 1) % N, 2 + N + (i + 1) % N),
           (2 + N + (i + 1) % N, 2 + i), (2 + i, 2 + N + (i + 1) % N),
           (2 + N + (i + 1) % N, 2 + N + i), (2 + N + i, 2 + i)])) := by
  rw [prismFaces, edgeList_append, edgeList_append, bottomCapFaces, topCapFaces,
    sideQuadFaces, edgeList_map_range, edgeList_map_range, edgeList_flatMap_pair]
  rfl

theorem prism_edge_nodup {N : ℕ} (hN : 3 ≤ N) : (edgeList (prismFaces N)).Nodup := by
  rw [edgeList_prism, List.nodup_append, List.nodup_append]
  refine ⟨⟨?_, ?_, ?_⟩, ?_, ?_⟩
  · rw [List.nodup_flatMap]
    constructor
    · intro i hi
      simp only [List.mem_range] at hi
      rcases next_spec N i hi with ⟨e1, l1⟩ | ⟨e1, l1⟩ <;>
        simp [e1, Prod.mk.injEq] <;> try omega
    · rw [List.pairwise_iff_getElem]
      intro i j hi hj hij
      simp only [List.length_range] at hi hj
      simp only [List.getElem_range]
      intro e he1 he2
      simp only [List.mem_cons, List.not_mem_nil, or_false] at he1 he2
      rcases next_spec N i (by omega) with ⟨e1, l1⟩ | ⟨e1, l1⟩ <;>
        rcases next_spec N j (by omega) with ⟨e2, l2⟩ | ⟨e2, l2⟩ <;>
          rcases he1 with rfl | rfl | rfl <;>
            rcases he2 with h | h | h <;>
              simp only [Prod.mk.injEq, e1, e2] at h <;> omega
  · rw [List.nodup_flatMap]
    constructor
    · intro i hi
      simp only [List.mem_range] at hi
      rcases next_spec N i hi with ⟨e1, l1⟩ | ⟨e1, l1⟩ <;>
        simp [e1, Prod.mk.injEq] <;> try omega
    · rw [List.pairwise_iff_getElem]
      intro i j hi hj hij
      simp only [List.length_range] at hi hj
      simp only [List.getElem_range]
      intro e he1 he2
      simp only [List.mem_cons, List.not_mem_nil, or_false] at he1 he2
      rcases next_spec N i (by omega) with ⟨e1, l1⟩ | ⟨e1, l1⟩ <;>
        rcases next_spec N j (by omega) with ⟨e2, l2⟩ | ⟨e2, l2⟩ <;>
          rcases he1 with rfl | rfl | rfl <;>
            rcases he2 with h | h | h <;>
              simp only [Prod.mk.injEq, e1, e2] at h <;> omega
  · intro e he1 he2
    simp only [List.mem_flatMap, List.mem_range, List.mem_cons, List.not_mem_nil,
      or_false] at he1 he2
    obtain ⟨i, hi, hei⟩ := he1
    obtain ⟨j, hj, hej⟩ := he2
    rcases next_spec N i hi with ⟨e1, l1⟩ | ⟨e1, l1⟩ <;>
      rcases next_spec N j hj with ⟨e2, l2⟩ | ⟨e2, l2⟩ <;>
        rcases hei with rfl | rfl | rfl <;>
          rcases hej with h | h | h <;>
            simp only [Prod.mk.injEq, e1, e2] at h <;> omega
  · rw [List.nodup_flatMap]
    constructor
    · intro i hi
      simp only [List.mem_range] at hi
      rcases next_spec N i hi with ⟨e1, l1⟩ | ⟨e1, l1⟩ <;>
        simp [e1, Prod.mk.injEq] <;> try omega
    · rw [List.pairwise_iff_getElem]
      intro i j hi hj hij
      simp only [List.length_range] at hi hj
      simp only [List.getElem_range]
      intro e he1 he2
      simp only [List.mem_cons, List.not_mem_nil, or_false] at he1 he2
      rcases next_spec N i (by omega) with ⟨e1, l1⟩ | ⟨e1, l1⟩ <;>
        rcases next_spec N j (by omega) with ⟨e2, l2⟩ | ⟨e2, l2⟩ <;>
          rcases he1 with rfl | rfl | rfl | rfl | rfl | rfl <;>
            rcases he2 with h | h | h | h | h | h <;>
              simp only [Prod.mk.injEq, e1, e2] at h <;> omega
  · intro e he1 he2
    rw [List.mem_append] at he1
    simp only [List.mem_flatMap, List.mem_range, List.mem_cons, List.not_mem_nil,
      or_false] at he1 he2
    obtain ⟨j, hj, hej⟩ := he2
    rcases he1 with ⟨i, hi, hei⟩ | ⟨i, hi, hei⟩ <;>
      rcases next_spec N i hi with ⟨e1, l1⟩ | ⟨e1, l1⟩ <;>
        rcases next_spec N j hj with ⟨e2, l2⟩ | ⟨e2, l2⟩ <;>
          rcases hei with rfl | rfl | rfl <;>
            rcases hej with h | h | h | h | h | h <;>
              simp only [Prod.mk.injEq, e1, e2] at h <;> omega

theorem prism_edge_swap (N : ℕ) :
    Multiset.map Prod.swap (↑(edgeList (prismFaces N)) : Multiset (ℕ × ℕ))
      = ↑(edgeList (prismFaces N)) := by
  rw [edgeList_prism, ← Multiset.coe_add, ← Multiset.coe_add,
    coe_flatMap_range, coe_flatMap_range, coe_flatMap_range,
    Multiset.map_add, Multiset.map_add, map_sum_range, map_sum_range, map_sum_range]
  show (∑ i ∈ Finset.range N,
        (({((2 + (i + 1) % N : ℕ), (0 : ℕ))} : Multiset (ℕ × ℕ))
          + {((2 + i : ℕ), 2 + (i + 1) % N)} + {((0 : ℕ), 2 + i)}))
      + (∑ i ∈ Finset.range N,
        (({((2 + N + i : ℕ), (1 : ℕ))} : Multiset (ℕ × ℕ))
          + {((2 + N + (i + 1) % N : ℕ), 2 + N + i)} + {((1 : ℕ), 2 + N + (i + 1) % N)}))
      + (∑ i ∈ Finset.range N,
        (({((2 + (i + 1) % N : ℕ), (2 + i : ℕ))} : Multiset (ℕ × ℕ))
          + {((2 + N + (i + 1) % N : ℕ), 2 + (i + 1) % N)}
          + {((2 + i : ℕ), 2 + N + (i + 1) % N)}
          + {((2 + N + (i + 1) % N : ℕ), 2 + i)}
          + {((2 + N + i : ℕ), 2 + N + (i + 1) % N)}
          + {((2 + i : ℕ), 2 + N + i)}))
    = (∑ i ∈ Finset.range N,
        (({((0 : ℕ), (2 + (i + 1) % N : ℕ))} : Multiset (ℕ × ℕ))
          + {((2 + (i + 1) % N : ℕ), 2 + i)} + {((2 + i : ℕ), (0 : ℕ))}))
      + (∑ i ∈ Finset.range N,
        (({((1 : ℕ), (2 + N + i : ℕ))} : Multiset (ℕ × ℕ))
          + {((2 + N + i : ℕ), 2 + N + (i + 1) % N)} + {((2 + N + (i + 1) % N : ℕ), 1)}))
      + (∑ i ∈ Finset.range N,
        (({((2 + i : ℕ), (2 + (i + 1) % N : ℕ))} : Multiset (ℕ × ℕ))
          + {((2 + (i + 1) % N : ℕ), 2 + N + (i + 1) % N)}
          + {((2 + N + (i + 1) % N : ℕ), 2 + i)}
          + {((2 + i : ℕ), 2 + N + (i + 1) % N)}
          + {((2 + N + (i + 1) % N : ℕ), 2 + N + i)}
          + {((2 + N + i : ℕ), 2 + i)}))
  simp only [Finset.sum_add_distrib]
  have hr1 : (∑ i ∈ Finset.range N,
        ({((2 + (i + 1) % N : ℕ), (0 : ℕ))} : Multiset (ℕ × ℕ)))
      = ∑ i ∈ Finset.range N, ({((2 + i : ℕ), (0 : ℕ))} : Multiset (ℕ × ℕ)) :=
    sum_range_rot N (fun k => {((2 + k : ℕ), (0 : ℕ))})
  have hr2 : (∑ i ∈ Finset.range N,
        ({((1 : ℕ), (2 + N + (i + 1) % N : ℕ))} : Multiset (ℕ × ℕ)))
      = ∑ i ∈ Finset.range N, ({((1 : ℕ), (2 + N + i : ℕ))} : Multiset (ℕ × ℕ)) :=
    sum_range_rot N (fun k => {((1 : ℕ), (2 + N + k : ℕ))})
  have hr3 : (∑ i ∈ Finset.range N,
        ({((2 + N + (i + 1) % N : ℕ), (2 + (i + 1) % N : ℕ))} : Multiset (ℕ × ℕ)))
      = ∑ i ∈ Finset.range N, ({((2 + N + i : ℕ), (2 + i : ℕ))} : Multiset (ℕ × ℕ)) :=
    sum_range_rot N (fun k => {((2 + N + k : ℕ), (2 + k : ℕ))})
  have hr4 : (∑ i ∈ Finset.range N,
        ({((0 : ℕ), (2 + (i + 1) % N : ℕ))} : Multiset (ℕ × ℕ)))
      = ∑ i ∈ Finset.range N, ({((0 : ℕ), (2 + i : ℕ))} : Multiset (ℕ × ℕ)) :=
    sum_range_rot N (fun k => {((0 : ℕ), (2 + k : ℕ))})
  have hr5 : (∑ i ∈ Finset.range N,
        ({((2 + N + (i + 1) % N : ℕ), (1 : ℕ))} : Multiset (ℕ × ℕ)))
      = ∑ i ∈ Finset.range N, ({((2 + N + i : ℕ), (1 : ℕ))} : Multiset (ℕ × ℕ)) :=
    sum_range_rot N (fun k => {((2 + N + k : ℕ), (1 : ℕ))})
  have hr6 : (∑ i ∈ Finset.range N,
        ({((2 + (i + 1) % N : ℕ), (2 + N + (i + 1) % N : ℕ))} : Multiset (ℕ × ℕ)))
      = ∑ i ∈ Finset.range N, ({((2 + i : ℕ), (2 + N + i : ℕ))} : Multiset (ℕ × ℕ)) :=
    sum_range_rot N (fun k => {((2 + k : ℕ), (2 + N + k : ℕ))})
  rw [hr1, hr2, hr3, hr4, hr5, hr6]
  abel

theorem prism_isClosed {N : ℕ} (hN : 3 ≤ N) : IsClosed (prismFaces N) :=
  isClosed_of (prismFaces_distinct hN) (prism_edge_nodup hN) (prism_edge_swap N)

/-! ### Closure of the sphere mesh -/

theorem edgeList_flatMap {α : Type} (l : List α) (g : α → List Face) :
    edgeList (l.flatMap g) = l.flatMap (fun x => edgeList (g x)) :=
  List.flatMap_assoc l g edgesOf

theorem mul_bridge {i j M : ℕ} (h : i < j) : i * M + M ≤ j * M := by
  have h2 := Nat.mul_le_mul_right M (show i + 1 ≤ j from h)
  rwa [Nat.succ_mul] at h2

theorem zero_or_le_mul (i M : ℕ) : i = 0 ∨ M ≤ i * M := by
  rcases Nat.eq_zero_or_pos i with h | h
  · exact Or.inl h
  · exact Or.inr (le_mul_of_one_le_left (Nat.zero_le M) h)

theorem edgeList_sphere (Nv Nh : ℕ) :
    edgeList (sphereFaces Nv Nh)
      = ((List.range Nh).flatMap (fun j =>
          [((0 : ℕ), 1 + (j + 1) % Nh), (1 + (j + 1) % Nh, 1 + j), (1 + j, 0)]))
      ++ ((List.range (Nv - 2)).flatMap (fun i =>
          (List.range Nh).flatMap (fun j =>
            [(1 + i * Nh + j, 1 + i * Nh + (j + 1) % Nh),
             (1 + i * Nh + (j + 1) % Nh, 1 + (i + 1) * Nh + (j + 1) % Nh),
             (1 + (i + 1) * Nh + (j + 1) % Nh, 1 + i * Nh + j),
             (1 + i * Nh + j, 1 + (i + 1) * Nh + (j + 1) % Nh),
             (1 + (i + 1) * Nh + (j + 1) % Nh, 1 + (i + 1) * Nh + j),
             (1 + (i + 1) * Nh + j, 1 + i * Nh + j)])))
      ++ ((List.range Nh).flatMap (fun j =>
          [(1 + (Nv - 2) * Nh + j, 1 + (Nv - 2) * Nh + (j + 1) % Nh),
           (1 + (Nv - 2) * Nh + (j + 1) % Nh, 1 + (Nv - 1) * Nh),
           (1 + (Nv - 1) * Nh, 1 + (Nv - 2) * Nh + j)])) := by
  rw [sphereFaces, edgeList_append, edgeList_append, sphereNorthFaces,
    sphereMidFaces, sphereSouthFaces, edgeList_map_range, edgeList_map_range,
    edgeList_flatMap]
  have hmid : ∀ i : ℕ,
      edgeList ((List.range Nh).flatMap (fun j =>
        [((1 + i * Nh + j : ℕ), (1 + i * Nh + (j + 1) % Nh : ℕ),
          (1 + (i + 1) * Nh + (j + 1) % Nh : ℕ)),
         ((1 + i * Nh + j : ℕ), (1 + (i + 1) * Nh + (j + 1) % Nh : ℕ),
          (1 + (i + 1) * Nh + j : ℕ))]))
      = (List.range Nh).flatMap (fun j =>
          [((1 + i * Nh + j : ℕ), (1 + i * Nh + (j + 1) % Nh : ℕ)),
           (1 + i * Nh + (j + 1) % Nh, 1 + (i + 1) * Nh + (j + 1) % Nh),
           (1 + (i + 1) * Nh + (j + 1) % Nh, 1 + i * Nh + j),
           (1 + i * Nh + j, 1 + (i + 1) * Nh + (j + 1) % Nh),
           (1 + (i + 1) * Nh + (j + 1) % Nh, 1 + (i + 1) * Nh + j),
           (1 + (i + 1) * Nh + j, 1 + i * Nh + j)]) := by
    intro i
    rw [edgeList_flatMap_pair]
    rfl
  rw [flatMap_congr_left (fun i _ => hmid i)]
  rfl

theorem sphere_edge_nodup {Nv Nh : ℕ} (hNv : 3 ≤ Nv) (hNh : 3 ≤ Nh) :
    (edgeList (sphereFaces Nv Nh)).Nodup := by
  have hpm : (Nv - 1) * Nh = (Nv - 2) * Nh + Nh := pred_mul_eq hNv Nh
  rw [edgeList_sphere, List.nodup_append, List.nodup_append]
  refine ⟨⟨?_, ?_, ?_⟩, ?_, ?_⟩
  · -- north fan edges
    rw [List.nodup_flatMap]
    constructor
    · intro j hj
      simp only [List.mem_range] at hj
      rcases next_spec Nh j hj with ⟨e1, l1⟩ | ⟨e1, l1⟩ <;>
        simp [e1, Prod.mk.injEq] <;> try omega
    · rw [List.pairwise_iff_getElem]
      intro i j hi hj hij
      simp only [List.length_range] at hi hj
      simp only [List.getElem_range]
      intro e he1 he2
      simp only [List.mem_cons, List.not_mem_nil, or_false] at he1 he2
      rcases next_spec Nh i (by omega) with ⟨e1, l1⟩ | ⟨e1, l1⟩ <;>
        rcases next_spec Nh j (by omega) with ⟨e2, l2⟩ | ⟨e2, l2⟩ <;>
          rcases he1 with rfl | rfl | rfl <;>
            rcases he2 with h | h | h <;>
              simp only [Prod.mk.injEq, e1, e2] at h <;> omega
  · -- mid band edges
    rw [List.nodup_flatMap]
    constructor
    · intro i hi
      simp only [List.mem_range] at hi
      rw [List.nodup_flatMap]
      constructor
      · intro j hj
        simp only [List.mem_range] at hj
        rcases next_spec Nh j hj with ⟨e1, l1⟩ | ⟨e1, l1⟩ <;>
          simp only [e1, succ_mul_eq, List.nodup_cons, List.mem_cons,
            List.not_mem_nil, or_false, not_or, List.nodup_nil, and_true,
            Prod.mk.injEq, not_and, true_implies, not_false_eq_true] <;> omega
      · rw [List.pairwise_iff_getElem]
        intro j1 j2 hj1 hj2 hjj
        simp only [List.length_range] at hj1 hj2
        simp only [List.getElem_range]
        intro e he1 he2
        simp only [List.mem_cons, List.not_mem_nil, or_false] at he1 he2
        rcases next_spec Nh j1 (by omega) with ⟨e1, l1⟩ | ⟨e1, l1⟩ <;>
          rcases next_spec Nh j2 (by omega) with ⟨e2, l2⟩ | ⟨e2, l2⟩ <;>
            rcases he1 with rfl | rfl | rfl | rfl | rfl | rfl <;>
              rcases he2 with h | h | h | h | h | h <;>
                simp only [Prod.mk.injEq, e1, e2, succ_mul_eq] at h <;> omega
    · rw [List.pairwise_iff_getElem]
      intro i1 i2 hi1 hi2 hii
      simp only [List.length_range] at hi1 hi2
      simp only [List.getElem_range]
      intro e he1 he2
      simp only [List.mem_flatMap, List.mem_range, List.mem_cons,
        List.not_mem_nil, or_false] at he1 he2
      obtain ⟨j1, hj1, hej1⟩ := he1
      obtain ⟨j2, hj2, hej2⟩ := he2
      have hbr : i1 * Nh + Nh ≤ i2 * Nh := mul_bridge hii
      rcases next_spec Nh j1 hj1 with ⟨e1, l1⟩ | ⟨e1, l1⟩ <;>
        rcases next_spec Nh j2 hj2 with ⟨e2, l2⟩ | ⟨e2, l2⟩ <;>
          rcases hej1 with rfl | rfl | rfl | rfl | rfl | rfl <;>
            rcases hej2 with h | h | h | h | h | h <;>
              simp only [Prod.mk.injEq, e1, e2, succ_mul_eq] at h <;> omega
  · -- north disjoint from mid
    intro e he1 he2
    simp only [List.mem_flatMap, List.mem_range, List.mem_cons, List.not_mem_nil,
      or_false] at he1 he2
    obtain ⟨j1, hj1, hej1⟩ := he1
    obtain ⟨i, hi, j2, hj2, hej2⟩ := he2
    have hz := zero_or_le_mul i Nh
    rcases next_spec Nh j1 hj1 with ⟨e1, l1⟩ | ⟨e1, l1⟩ <;>
      rcases next_spec Nh j2 hj2 with ⟨e2, l2⟩ | ⟨e2, l2⟩ <;>
        rcases hej1 with rfl | rfl | rfl <;>
          rcases hej2 with h | h | h | h | h | h <;>
            simp only [Prod.mk.injEq, e1, e2, succ_mul_eq] at h <;> omega
  · -- south fan edges
    rw [List.nodup_flatMap]
    constructor
    · intro j hj
      simp only [List.mem_range] at hj
      rcases next_spec Nh j hj with ⟨e1, l1⟩ | ⟨e1, l1⟩ <;>
        simp only [e1, hpm, List.nodup_cons, List.mem_cons, List.not_mem_nil,
          or_false, not_or, List.nodup_nil, and_true, Prod.mk.injEq, not_and,
          true_implies, not_false_eq_true] <;> omega
    · rw [List.pairwise_iff_getElem]
      intro j1 j2 hj1 hj2 hjj
      simp only [List.length_range] at hj1 hj2
      simp only [List.getElem_range]
      intro e he1 he2
      simp only [List.mem_cons, List.not_mem_nil, or_false] at he1 he2
      rcases next_spec Nh j1 (by omega) with ⟨e1, l1⟩ | ⟨e1, l1⟩ <;>
        rcases next_spec Nh j2 (by omega) with ⟨e2, l2⟩ | ⟨e2, l2⟩ <;>
          rcases he1 with rfl | rfl | rfl <;>
            rcases he2 with h | h | h <;>
              simp only [Prod.mk.injEq, e1, e2, hpm] at h <;> omega
  · -- north and mid disjoint from south
    intro e he1 he2
    rw [List.mem_append] at he1
    simp only [List.mem_flatMap, List.mem_range, List.mem_cons, List.not_mem_nil,
      or_false] at he1 he2
    obtain ⟨j2, hj2, hej2⟩ := he2
    rcases he1 with ⟨j1, hj1, hej1⟩ | ⟨i, hi, j1, hj1, hej1⟩
    · have hz : Nh ≤ (Nv - 2) * Nh := le_mul_of_one_le_left (Nat.zero_le Nh) (by omega)
      rcases next_spec Nh j1 hj1 with ⟨e1, l1⟩ | ⟨e1, l1⟩ <;>
        rcases next_spec Nh j2 hj2 with ⟨e2, l2⟩ | ⟨e2, l2⟩ <;>
          rcases hej1 with rfl | rfl | rfl <;>
            rcases hej2 with h | h | h <;>
              simp only [Prod.mk.injEq, e1, e2, hpm] at h <;> omega
    · have hbr : i * Nh + Nh ≤ (Nv - 2) * Nh := by
        have h2 := Nat.mul_le_mul_right Nh (show i + 1 ≤ Nv - 2 from hi)
        rwa [Nat.succ_mul] at h2
      rcases next_spec Nh j1 hj1 with ⟨e1, l1⟩ | ⟨e1, l1⟩ <;>
        rcases next_spec Nh j2 hj2 with ⟨e2, l2⟩ | ⟨e2, l2⟩ <;>
          rcases hej1 with rfl | rfl | rfl | rfl | rfl | rfl <;>
            rcases hej2 with h | h | h <;>
              simp only [Prod.mk.injEq, e1, e2, hpm, succ_mul_eq] at h <;> omega


theorem sphere_edge_swap (Nv Nh : ℕ) :
    Multiset.map Prod.swap (↑(edgeList (sphereFaces Nv Nh)) : Multiset (ℕ × ℕ))
      = ↑(edgeList (sphereFaces Nv Nh)) := by
  rw [edgeList_sphere]
  rw [← Multiset.coe_add, ← Multiset.coe_add,
    coe_flatMap_range, coe_flatMap_range, coe_flatMap_range,
    Multiset.map_add, Multiset.map_add, map_sum_range, map_sum_range, map_sum_range]
  have hmL : (∑ i ∈ Finset.range (Nv - 2), Multiset.map Prod.swap
        (↑((List.range Nh).flatMap (fun j =>
          [((1 + i * Nh + j : ℕ), (1 + i * Nh + (j + 1) % Nh : ℕ)),
           (1 + i * Nh + (j + 1) % Nh, 1 + (i + 1) * Nh + (j + 1) % Nh),
           (1 + (i + 1) * Nh + (j + 1) % Nh, 1 + i * Nh + j),
           (1 + i * Nh + j, 1 + (i + 1) * Nh + (j + 1) % Nh),
           (1 + (i + 1) * Nh + (j + 1) % Nh, 1 + (i + 1) * Nh + j),
           (1 + (i + 1) * Nh + j, 1 + i * Nh + j)])) : Multiset (ℕ × ℕ)))
      = ∑ i ∈ Finset.range (Nv - 2), ∑ j ∈ Finset.range Nh, Multiset.map Prod.swap
        (↑([((1 + i * Nh + j : ℕ), (1 + i * Nh + (j + 1) % Nh : ℕ)),
           (1 + i * Nh + (j + 1) % Nh, 1 + (i + 1) * Nh + (j + 1) % Nh),
           (1 + (i + 1) * Nh + (j + 1) % Nh, 1 + i * Nh + j),
           (1 + i * Nh + j, 1 + (i + 1) * Nh + (j + 1) % Nh),
           (1 + (i + 1) * Nh + (j + 1) % Nh, 1 + (i + 1) * Nh + j),
           (1 + (i + 1) * Nh + j, 1 + i * Nh + j)]) : Multiset (ℕ × ℕ)) :=
    Finset.sum_congr rfl (fun i _ => by rw [coe_flatMap_range, map_sum_range])
  have hmR : (∑ i ∈ Finset.range (Nv - 2),
        (↑((List.range Nh).flatMap (fun j =>
          [((1 + i * Nh + j : ℕ), (1 + i * Nh + (j + 1) % Nh : ℕ)),
           (1 + i * Nh + (j + 1) % Nh, 1 + (i + 1) * Nh + (j + 1) % Nh),
           (1 + (i + 1) * Nh + (j + 1) % Nh, 1 + i * Nh + j),
           (1 + i * Nh + j, 1 + (i + 1) * Nh + (j + 1) % Nh),
           (1 + (i + 1) * Nh + (j + 1) % Nh, 1 + (i + 1) * Nh + j),
           (1 + (i + 1) * Nh + j, 1 + i * Nh + j)])) : Multiset (ℕ × ℕ)))
      = ∑ i ∈ Finset.range (Nv - 2), ∑ j ∈ Finset.range Nh,
        (↑([((1 + i * Nh + j : ℕ), (1 + i * Nh + (j + 1) % Nh : ℕ)),
           (1 + i * Nh + (j + 1) % Nh, 1 + (i + 1) * Nh + (j + 1) % Nh),
           (1 + (i + 1) * Nh + (j + 1) % Nh, 1 + i * Nh + j),
           (1 + i * Nh + j, 1 + (i + 1) * Nh + (j + 1) % Nh),
           (1 + (i + 1) * Nh + (j + 1) % Nh, 1 + (i + 1) * Nh + j),
           (1 + (i + 1) * Nh + j, 1 + i * Nh + j)]) : Multiset (ℕ × ℕ)) :=
    Finset.sum_congr rfl (fun i _ => coe_flatMap_range Nh _)
  rw [hmL, hmR]
  show (∑ j ∈ Finset.range Nh,
        (({((1 + (j + 1) % Nh : ℕ), (0 : ℕ))} : Multiset (ℕ × ℕ))
          + {((1 + j : ℕ), (1 + (j + 1) % Nh : ℕ))} + {((0 : ℕ), (1 + j : ℕ))}))
      + (∑ i ∈ Finset.range (Nv - 2), ∑ j ∈ Finset.range Nh,
        (({((1 + i * Nh + (j + 1) % Nh : ℕ), (1 + i * Nh + j : ℕ))} : Multiset (ℕ × ℕ))
          + {((1 + (i + 1) * Nh + (j + 1) % Nh : ℕ), (1 + i * Nh + (j + 1) % Nh : ℕ))}
          + {((1 + i * Nh + j : ℕ), (1 + (i + 1) * Nh + (j + 1) % Nh : ℕ))}
          + {((1 + (i + 1) * Nh + (j + 1) % Nh : ℕ), (1 + i * Nh + j : ℕ))}
          + {((1 + (i + 1) * Nh + j : ℕ), (1 + (i + 1) * Nh + (j + 1) % Nh : ℕ))}
          + {((1 + i * Nh + j : ℕ), (1 + (i + 1) * Nh + j : ℕ))}))
      + (∑ j ∈ Finset.range Nh,
        (({((1 + (Nv - 2) * Nh + (j + 1) % Nh : ℕ), (1 + (Nv - 2) * Nh + j : ℕ))} : Multiset (ℕ × ℕ))
          + {((1 + (Nv - 1) * Nh : ℕ), (1 + (Nv - 2) * Nh + (j + 1) % Nh : ℕ))}
          + {((1 + (Nv - 2) * Nh + j : ℕ), (1 + (Nv - 1) * Nh : ℕ))}))
    = (∑ j ∈ Finset.range Nh,
        (({((0 : ℕ), (1 + (j + 1) % Nh : ℕ))} : Multiset (ℕ × ℕ))
          + {((1 + (j + 1) % Nh : ℕ), (1 + j : ℕ))} + {((1 + j : ℕ), (0 : ℕ))}))
      + (∑ i ∈ Finset.range (Nv - 2), ∑ j ∈ Finset.range Nh,
        (({((1 + i * Nh + j : ℕ), (1 + i * Nh + (j + 1) % Nh : ℕ))} : Multiset (ℕ × ℕ))
          + {((1 + i * Nh + (j + 1) % Nh : ℕ), (1 + (i + 1) * Nh + (j + 1) % Nh : ℕ))}
          + {((1 + (i + 1) * Nh + (j + 1) % Nh : ℕ), (1 + i * Nh + j : ℕ))}
          + {((1 + i * Nh + j : ℕ), (1 + (i + 1) * Nh + (j + 1) % Nh : ℕ))}
          + {((1 + (i + 1) * Nh + (j + 1) % Nh : ℕ), (1 + (i + 1) * Nh + j : ℕ))}
          + {((1 + (i + 1) * Nh + j : ℕ), (1 + i * Nh + j : ℕ))}))
      + (∑ j ∈ Finset.range Nh,
        (({((1 + (Nv - 2) * Nh + j : ℕ), (1 + (Nv - 2) * Nh + (j + 1) % Nh : ℕ))} : Multiset (ℕ × ℕ))
          + {((1 + (Nv - 2) * Nh + (j + 1) % Nh : ℕ), (1 + (Nv - 1) * Nh : ℕ))}
          + {((1 + (Nv - 1) * Nh : ℕ), (1 + (Nv - 2) * Nh + j : ℕ))}))
  simp only [Finset.sum_add_distrib]
  have hr1 : (∑ j ∈ Finset.range Nh,
        ({((1 + (j + 1) % Nh : ℕ), (0 : ℕ))} : Multiset (ℕ × ℕ)))
      = ∑ j ∈ Finset.range Nh, ({((1 + j : ℕ), (0 : ℕ))} : Multiset (ℕ × ℕ)) :=
    sum_range_rot Nh (fun k => {((1 + k : ℕ), (0 : ℕ))})
  have hr2 : (∑ j ∈ Finset.range Nh,
        ({((0 : ℕ), (1 + (j + 1) % Nh : ℕ))} : Multiset (ℕ × ℕ)))
      = ∑ j ∈ Finset.range Nh, ({((0 : ℕ), (1 + j : ℕ))} : Multiset (ℕ × ℕ)) :=
    sum_range_rot Nh (fun k => {((0 : ℕ), (1 + k : ℕ))})
  have hr3 : (∑ j ∈ Finset.range Nh,
        ({((1 + (Nv - 1) * Nh : ℕ), (1 + (Nv - 2) * Nh + (j + 1) % Nh : ℕ))} : Multiset (ℕ × ℕ)))
      = ∑ j ∈ Finset.range Nh,
        ({((1 + (Nv - 1) * Nh : ℕ), (1 + (Nv - 2) * Nh + j : ℕ))} : Multiset (ℕ × ℕ)) :=
    sum_range_rot Nh (fun k => {((1 + (Nv - 1) * Nh : ℕ), (1 + (Nv - 2) * Nh + k : ℕ))})
  have hr4 : (∑ j ∈ Finset.range Nh,
        ({((1 + (Nv - 2) * Nh + (j + 1) % Nh : ℕ), (1 + (Nv - 1) * Nh : ℕ))} : Multiset (ℕ × ℕ)))
      = ∑ j ∈ Finset.range Nh,
        ({((1 + (Nv - 2) * Nh + j : ℕ), (1 + (Nv - 1) * Nh : ℕ))} : Multiset (ℕ × ℕ)) :=
    sum_range_rot Nh (fun k => {((1 + (Nv - 2) * Nh + k : ℕ), (1 + (Nv - 1) * Nh : ℕ))})
  have hr5 : (∑ i ∈ Finset.range (Nv - 2), ∑ j ∈ Finset.range Nh,
        ({((1 + (i + 1) * Nh + (j + 1) % Nh : ℕ), (1 + i * Nh + (j + 1) % Nh : ℕ))} : Multiset (ℕ × ℕ)))
      = ∑ i ∈ Finset.range (Nv - 2), ∑ j ∈ Finset.range Nh,
        ({((1 + (i + 1) * Nh + j : ℕ), (1 + i * Nh + j : ℕ))} : Multiset (ℕ × ℕ)) :=
    Finset.sum_congr rfl (fun i _ =>
      sum_range_rot Nh (fun k => {((1 + (i + 1) * Nh + k : ℕ), (1 + i * Nh + k : ℕ))}))
  have hr6 : (∑ i ∈ Finset.range (Nv - 2), ∑ j ∈ Finset.range Nh,
        ({((1 + i * Nh + (j + 1) % Nh : ℕ), (1 + (i + 1) * Nh + (j + 1) % Nh : ℕ))} : Multiset (ℕ × ℕ)))
      = ∑ i ∈ Finset.range (Nv - 2), ∑ j ∈ Finset.range Nh,
        ({((1 + i * Nh + j : ℕ), (1 + (i + 1) * Nh + j : ℕ))} : Multiset (ℕ × ℕ)) :=
    Finset.sum_congr rfl (fun i _ =>
      sum_range_rot Nh (fun k => {((1 + i * Nh + k : ℕ), (1 + (i + 1) * Nh + k : ℕ))}))
  rw [hr1, hr2, hr3, hr4, hr5, hr6]
  have hF0 : (∑ j ∈ Finset.range Nh,
        ({((1 + 0 * Nh + j : ℕ), (1 + 0 * Nh + (j + 1) % Nh : ℕ))} : Multiset (ℕ × ℕ)))
      = ∑ j ∈ Finset.range Nh, ({((1 + j : ℕ), (1 + (j + 1) % Nh : ℕ))} : Multiset (ℕ × ℕ)) :=
    Finset.sum_congr rfl (fun j _ => by rw [Nat.zero_mul, Nat.add_zero])
  have hR0 : (∑ j ∈ Finset.range Nh,
        ({((1 + 0 * Nh + (j + 1) % Nh : ℕ), (1 + 0 * Nh + j : ℕ))} : Multiset (ℕ × ℕ)))
      = ∑ j ∈ Finset.range Nh, ({((1 + (j + 1) % Nh : ℕ), (1 + j : ℕ))} : Multiset (ℕ × ℕ)) :=
    Finset.sum_congr rfl (fun j _ => by rw [Nat.zero_mul, Nat.add_zero])
  have hsF : (∑ i ∈ Finset.range (Nv - 2), ∑ j ∈ Finset.range Nh,
        ({((1 + (i + 1) * Nh + j : ℕ), (1 + (i + 1) * Nh + (j + 1) % Nh : ℕ))} : Multiset (ℕ × ℕ)))
      + (∑ j ∈ Finset.range Nh,
        ({((1 + 0 * Nh + j : ℕ), (1 + 0 * Nh + (j + 1) % Nh : ℕ))} : Multiset (ℕ × ℕ)))
      = (∑ i ∈ Finset.range (Nv - 2), ∑ j ∈ Finset.range Nh,
        ({((1 + i * Nh + j : ℕ), (1 + i * Nh + (j + 1) % Nh : ℕ))} : Multiset (ℕ × ℕ)))
      + (∑ j ∈ Finset.range Nh,
        ({((1 + (Nv - 2) * Nh + j : ℕ), (1 + (Nv - 2) * Nh + (j + 1) % Nh : ℕ))} : Multiset (ℕ × ℕ))) :=
    sum_range_shift (Nv - 2) (fun l => ∑ j ∈ Finset.range Nh,
      {((1 + l * Nh + j : ℕ), (1 + l * Nh + (j + 1) % Nh : ℕ))})
  have hsR : (∑ i ∈ Finset.range (Nv - 2), ∑ j ∈ Finset.range Nh,
        ({((1 + (i + 1) * Nh + (j + 1) % Nh : ℕ), (1 + (i + 1) * Nh + j : ℕ))} : Multiset (ℕ × ℕ)))
      + (∑ j ∈ Finset.range Nh,
        ({((1 + 0 * Nh + (j + 1) % Nh : ℕ), (1 + 0 * Nh + j : ℕ))} : Multiset (ℕ × ℕ)))
      = (∑ i ∈ Finset.range (Nv - 2), ∑ j ∈ Finset.range Nh,
        ({((1 + i * Nh + (j + 1) % Nh : ℕ), (1 + i * Nh + j : ℕ))} : Multiset (ℕ × ℕ)))
      + (∑ j ∈ Finset.range Nh,
        ({((1 + (Nv - 2) * Nh + (j + 1) % Nh : ℕ), (1 + (Nv - 2) * Nh + j : ℕ))} : Multiset (ℕ × ℕ))) :=
    sum_range_shift (Nv - 2) (fun l => ∑ j ∈ Finset.range Nh,
      {((1 + l * Nh + (j + 1) % Nh : ℕ), (1 + l * Nh + j : ℕ))})
  rw [hF0] at hsF
  rw [hR0] at hsR
  trans ((∑ j ∈ Finset.range Nh, ({((1 + j : ℕ), (0 : ℕ))} : Multiset (ℕ × ℕ)))
      + (∑ j ∈ Finset.range Nh, ({((0 : ℕ), (1 + j : ℕ))} : Multiset (ℕ × ℕ)))
      + (∑ i ∈ Finset.range (Nv - 2), ∑ j ∈ Finset.range Nh,
        ({((1 + (i + 1) * Nh + j : ℕ), (1 + i * Nh + j : ℕ))} : Multiset (ℕ × ℕ)))
      + (∑ i ∈ Finset.range (Nv - 2), ∑ j ∈ Finset.range Nh,
        ({((1 + i * Nh + j : ℕ), (1 + (i + 1) * Nh + (j + 1) % Nh : ℕ))} : Multiset (ℕ × ℕ)))
      + (∑ i ∈ Finset.range (Nv - 2), ∑ j ∈ Finset.range Nh,
        ({((1 + (i + 1) * Nh + (j + 1) % Nh : ℕ), (1 + i * Nh + j : ℕ))} : Multiset (ℕ × ℕ)))
      + (∑ i ∈ Finset.range (Nv - 2), ∑ j ∈ Finset.range Nh,
        ({((1 + i * Nh + j : ℕ), (1 + (i + 1) * Nh + j : ℕ))} : Multiset (ℕ × ℕ)))
      + (∑ j ∈ Finset.range Nh,
        ({((1 + (Nv - 2) * Nh + j : ℕ), (1 + (Nv - 1) * Nh : ℕ))} : Multiset (ℕ × ℕ)))
      + (∑ j ∈ Finset.range Nh,
        ({((1 + (Nv - 1) * Nh : ℕ), (1 + (Nv - 2) * Nh + j : ℕ))} : Multiset (ℕ × ℕ)))
      + ((∑ i ∈ Finset.range (Nv - 2), ∑ j ∈ Finset.range Nh,
        ({((1 + (i + 1) * Nh + j : ℕ), (1 + (i + 1) * Nh + (j + 1) % Nh : ℕ))} : Multiset (ℕ × ℕ)))
      + (∑ j ∈ Finset.range Nh, ({((1 + j : ℕ), (1 + (j + 1) % Nh : ℕ))} : Multiset (ℕ × ℕ))))
      + ((∑ i ∈ Finset.range (Nv - 2), ∑ j ∈ Finset.range Nh,
        ({((1 + i * Nh + (j + 1) % Nh : ℕ), (1 + i * Nh + j : ℕ))} : Multiset (ℕ × ℕ)))
      + (∑ j ∈ Finset.range Nh,
        ({((1 + (Nv - 2) * Nh + (j + 1) % Nh : ℕ), (1 + (Nv - 2) * Nh + j : ℕ))} : Multiset (ℕ × ℕ)))))
  · abel
  · rw [hsF, ← hsR]
    abel

theorem sphere_isClosed {Nv Nh : ℕ} (hNv : 3 ≤ Nv) (hNh : 3 ≤ Nh) :
    IsClosed (sphereFaces Nv Nh) :=
  isClosed_of (sphereFaces_distinct hNv hNh) (sphere_edge_nodup hNv hNh)
    (sphere_edge_swap Nv Nh)

/-- C2: every generated mesh is closed (watertight): for each of the four
generators, with the segment counts clamped internally to at least 3, every
undirected edge that occurs in some face of the produced face list occurs in
exactly two faces of that list. -/
theorem meshes_closed (r h rb rt : ℝ) (n nv nh : ℕ) :
    IsClosed (create_cylinder_stl r h n).2
      ∧ IsClosed (create_cone_stl r h n).2
      ∧ IsClosed (create_cone_with_top_stl rb rt h n).2
      ∧ IsClosed (create_sphere_stl r nv nh).2 :=
  ⟨prism_isClosed (le_max_left 3 n),
   cone_isClosed (le_max_left 3 n),
   prism_isClosed (le_max_left 3 n),
   sphere_isClosed (le_max_left 3 nv) (le_max_left 3 nh)⟩

end

end StlTool
